import Mathlib

/-!
Verification of the xest_hora timetable engine against its specification.

The development is a shallow embedding of the Python sources:

* `xest_hora/optimization/aggregation.py` — the tabular catalogue layer
  (class `Aggregation`): construction pipeline (required-column check,
  duplicate-key dropping, default filling, type coercion, column and row
  sorting), `add`, `update`, `merge`, the copying `data` accessor and
  `__getitem__`.
* `xest_hora/optimization_model.py` — the MILP model builder
  (`OptimizationModel.create_model`), the slack scan
  (`check_solver_status`) and the decoders (`get_class_calendars`,
  `get_teacher_calendars`).
* the catalogue schemas of `xest_hora/input/calendar_tasks.py`,
  `xest_hora/optimization/input/*.py`.

Pandas cells are modelled by the scalar type `CellValue` (integers,
rationals standing for floats, the IEEE infinity used as the declared
default of the weekly/daily caps, strings, and the null/NaN cell);
DataFrames by a column list plus association-list rows.  Model variables
take integer values (their Pyomo domains are Binary and
NonNegativeIntegers); index tuples are tuples of strings.
-/

/-- Scalar cell of a pandas DataFrame as used by the catalogues: Python
integers, floats (modelled as rationals), the float infinity
(`float("inf")`, the declared default of `max_time_periods` and
`max_time_period_per_day`), strings, and the null cell (NaN / missing
dictionary entry). -/
inductive CellValue where
  | vInt (n : ℤ)
  | vFloat (q : ℚ)
  | vInf
  | vStr (s : String)
  | vNull
deriving DecidableEq, Repr

/-- Declared column types of the catalogues (`_columns_type` values:
`int`, `float`, `str`). -/
inductive ColType where
  | tInt
  | tFloat
  | tStr
deriving DecidableEq, Repr

/-- Python `==` as used by `pandas.DataFrame.drop_duplicates`: numeric
values compare across int/float, NaN cells count as duplicates of each
other, strings compare as strings. -/
def pyEq : CellValue → CellValue → Bool
  | .vInt a, .vInt b => a == b
  | .vInt a, .vFloat b => (a : ℚ) == b
  | .vFloat a, .vInt b => a == ((b : ℚ))
  | .vFloat a, .vFloat b => a == b
  | .vInf, .vInf => true
  | .vStr a, .vStr b => a == b
  | .vNull, .vNull => true
  | _, _ => false

/-- Sort measure of a cell: null sorts first, then numeric values by
value, then infinity, then strings.  `pandas.DataFrame.sort_values`
compares homogeneous key columns by value; the measure extends that
order totally so that sorting is defined on every row list. -/
def cellMeasure (v : CellValue) : Lex (ℕ × Lex (ℚ × String)) :=
  match v with
  | .vNull => toLex (0, toLex (0, ""))
  | .vInt n => toLex (1, toLex ((n : ℚ), ""))
  | .vFloat q => toLex (1, toLex (q, ""))
  | .vInf => toLex (2, toLex (0, ""))
  | .vStr s => toLex (3, toLex (0, s))

/-- Total comparison of two cells, by sort measure. -/
def cellLe (a b : CellValue) : Bool :=
  decide (cellMeasure a ≤ cellMeasure b)

/-- Lexicographic comparison of two key tuples, as
`sort_values(by=self._indices)` orders rows. -/
def keyLe : List CellValue → List CellValue → Bool
  | [], _ => true
  | _ :: _, [] => false
  | a :: as, b :: bs => if cellMeasure a = cellMeasure b then keyLe as bs else cellLe a b

/-- A row, as the dictionary a pandas row is built from: entries for the
populated columns; a missing entry is the NaN cell. -/
abbrev Row := List (String × CellValue)

/-- Cell of a row at a column; missing entries read as null (NaN). -/
def cellAt (r : Row) (c : String) : CellValue :=
  (r.lookup c).getD .vNull

/-- The key tuple of a row under the declared index columns
(`self._indices`). -/
def keyOf (indices : List String) (r : Row) : List CellValue :=
  indices.map (cellAt r)

/-- Pointwise Python equality of two key tuples. -/
def keyEqB (k1 k2 : List CellValue) : Bool :=
  k1.length == k2.length && (k1.zip k2).all (fun p => pyEq p.1 p.2)

/-- A DataFrame: its column list and its rows. -/
structure DF where
  cols : List String
  rows : List Row
deriving DecidableEq, Repr

/-- Declared structure of a catalogue: `_columns`, `_indices`,
`_required_columns`, `_default_column_values`, `_columns_type` of an
`Aggregation` subclass. -/
structure Schema where
  columns : List String
  indices : List String
  requiredColumns : List String
  defaults : List (String × CellValue)
  columnsType : List (String × ColType)
deriving DecidableEq, Repr

/-- `drop_duplicates(subset=self._indices, keep="last")`: a row is kept
exactly when no later row has a Python-equal key tuple. -/
def dropDupKeysKeepLast (indices : List String) : List Row → List Row
  | [] => []
  | r :: rest =>
    if rest.any (fun r2 => keyEqB (keyOf indices r) (keyOf indices r2)) then
      dropDupKeysKeepLast indices rest
    else
      r :: dropDupKeysKeepLast indices rest

/-- `drop_duplicates(subset=columns)` with the default `keep="first"`,
used when no index columns are declared: the first occurrence of each
full row (over the known columns) is kept. -/
def dropDupFullKeepFirst (columns : List String) (l : List Row) : List Row :=
  (dropDupKeysKeepLast columns l.reverse).reverse

/-- The value of a decimal digit character. -/
def digitVal (c : Char) : Option ℕ :=
  if c.isDigit then some (c.toNat - 48) else none

/-- The natural number denoted by a nonempty digit string. -/
def natOfDigits (cs : List Char) : Option ℕ :=
  if cs.isEmpty then none
  else
    cs.foldl
      (fun acc c =>
        match acc, digitVal c with
        | some n, some d => some (n * 10 + d)
        | _, _ => none)
      (some 0)

/-- The integer denoted by an optionally signed digit string. -/
def intOfChars : List Char → Option ℤ
  | [] => none
  | c :: cs =>
    if c = Char.ofNat 45 then (natOfDigits cs).map (fun n => -((n : ℤ)))
    else if c = Char.ofNat 43 then (natOfDigits cs).map (fun n => ((n : ℤ)))
    else (natOfDigits (c :: cs)).map (fun n => ((n : ℤ)))

/-- Python `int(...)` applied to a string cell, as
`Series.astype(int)` converts object cells ("1" parses to 1). -/
def strToIntPy (s : String) : Option ℤ :=
  intOfChars s.data

/-- Python `float(...)` applied to a string cell: an optional sign,
digits, and an optional fractional part. -/
def strToRatPy (s : String) : Option ℚ :=
  match strToIntPy s with
  | some n => some ((n : ℚ))
  | none =>
    match s.data.splitOn (Char.ofNat 46) with
    | [ip, fp] =>
      match intOfChars ip, natOfDigits fp with
      | some i, some f =>
        some (((i : ℚ)) + (if ip.head? = some (Char.ofNat 45) then -1 else 1)
          * ((f : ℚ)) / ((10 : ℚ)) ^ fp.length)
      | _, _ => none
    | _ => none

/-- Truncation toward zero, as numpy casts float to int. -/
def qTrunc (q : ℚ) : ℤ :=
  if 0 ≤ q then ⌊q⌋ else ⌈q⌉

/-- One cell of `Series.astype(dtype)` (`Aggregation.__validate_type`):
coercion of a cell to a declared column type.  `none` is the raised
conversion error (e.g. `int("a")`, or casting NaN or infinity to int). -/
def astypeCell : ColType → CellValue → Option CellValue
  | .tInt, .vInt n => some (.vInt n)
  | .tInt, .vFloat q => some (.vInt (qTrunc q))
  | .tInt, .vStr s => (strToIntPy s).map .vInt
  | .tInt, .vInf => none
  | .tInt, .vNull => none
  | .tFloat, .vInt n => some (.vFloat ((n : ℚ)))
  | .tFloat, .vFloat q => some (.vFloat q)
  | .tFloat, .vInf => some .vInf
  | .tFloat, .vStr s => if s = "inf" then some .vInf else (strToRatPy s).map .vFloat
  | .tFloat, .vNull => some .vNull
  | .tStr, .vStr s => some (.vStr s)
  | .tStr, .vInt n => some (.vStr (toString n))
  | .tStr, .vFloat q => some (.vStr (toString q))
  | .tStr, .vInf => some (.vStr "inf")
  | .tStr, .vNull => some (.vStr "nan")

/-- One cell of `DataFrame.fillna(default_values)`
(`Aggregation.__replace_nan_with_default_value`): a null cell of a
column with a declared default becomes that default. -/
def fillCell (s : Schema) (c : String) (v : CellValue) : CellValue :=
  if v = .vNull then
    match s.defaults.lookup c with
    | some d => d
    | none => v
  else v

/-- `fillna` over one row: every cell of every present column. -/
def fillRowCells (s : Schema) (cols : List String) (r : Row) : Row :=
  cols.map (fun c => (c, fillCell s c (cellAt r c)))

/-- Type coercion of one cell of a column, when the column has a
declared type (`__validate_type` only touches declared columns). -/
def coerceCell (s : Schema) (c : String) (v : CellValue) : Option CellValue :=
  match s.columnsType.lookup c with
  | some ty => astypeCell ty v
  | none => some v

/-- `__validate_type` over one row: every declared column cell is
coerced; a conversion error rejects the data. -/
def coerceRow (s : Schema) (cols : List String) (r : Row) : Option Row :=
  cols.mapM (fun c => (coerceCell s c (cellAt r c)).map (fun v => (c, v)))

/-- `Aggregation.__validate_columns`: reject missing required columns
(ValueError), warn about unknown columns (not tracked), and drop
duplicated rows — by the declared key columns keeping the last
occurrence when indices are declared, by full row keeping the first
occurrence otherwise.  `drop_duplicates(subset=...)` raises KeyError
when a subset column is absent from the data. -/
def validateColumns (s : Schema) (df : DF) : Except String DF :=
  if !(s.requiredColumns.filter
      (fun c => !(s.columns.filter (fun c2 => df.cols.contains c2)).contains c)).isEmpty then
    .error "Required columns not found"
  else if !s.indices.isEmpty && !s.indices.all (fun c => df.cols.contains c) then
    .error "KeyError: subset column not found"
  else
    .ok { df with rows :=
      if s.indices.isEmpty then
        dropDupFullKeepFirst (s.columns.filter (fun c => df.cols.contains c)) df.rows
      else dropDupKeysKeepLast s.indices df.rows }

/-- Defaults for the schema columns absent from the data, in schema
order; `none` is the KeyError raised by
`self._default_column_values[c]` when a missing column has no declared
default. -/
def missingColDefaults (s : Schema) (cols : List String) : Option (List (String × CellValue)) :=
  (s.columns.filter (fun c => !cols.contains c)).mapM
    (fun c => (s.defaults.lookup c).map (fun d => (c, d)))

/-- `Aggregation.__add_missing_columns`: every schema column absent from
the data is appended, constant at its declared default. -/
def addMissingCols (s : Schema) (df : DF) : Except String DF :=
  match missingColDefaults s df.cols with
  | some pairs =>
    .ok { cols := df.cols ++ pairs.map (fun p => p.1),
          rows := df.rows.map (fun r => r ++ pairs) }
  | none => .error "KeyError: missing column without default"

/-- The tail of `Aggregation._validate_data`: null filling
(`__replace_nan_with_default_value`) then type coercion
(`__validate_type`); a coercion error rejects the data. -/
def validateTail (s : Schema) (df2 : DF) : Except String DF :=
  match (df2.rows.map (fillRowCells s df2.cols)).mapM (coerceRow s df2.cols) with
  | some rs => pure { cols := df2.cols, rows := rs }
  | none => throw "type coercion failure"

/-- `Aggregation._validate_data`: column validation and duplicate
dropping, then (optionally) missing-column addition, then null filling,
then type coercion. -/
def validateData (s : Schema) (addMissing : Bool) (df : DF) : Except String DF :=
  validateColumns s df >>= fun df1 =>
  (if addMissing then addMissingCols s df1 else pure df1) >>= fun df2 =>
  validateTail s df2

/-- Row restricted to the given columns in order (`data[self._columns]`
in `Aggregation.__sort_columns`). -/
def normalizeRow (columns : List String) (r : Row) : Row :=
  columns.map (fun c => (c, cellAt r c))

/-- `Aggregation.__sort_columns`: select the schema columns in schema
order; pandas raises KeyError when a schema column is absent. -/
def sortColumnsDF (s : Schema) (df : DF) : Except String DF :=
  if s.columns.all (fun c => df.cols.contains c) then
    .ok { cols := s.columns, rows := df.rows.map (normalizeRow s.columns) }
  else .error "KeyError: schema column not found"

/-- Row comparison by key tuple under a schema. -/
def rowLe (s : Schema) (r1 r2 : Row) : Prop :=
  keyLe (keyOf s.indices r1) (keyOf s.indices r2) = true

instance (s : Schema) : DecidableRel (rowLe s) :=
  fun _ _ => instDecidableEqBool _ _

/-- `Aggregation.__sort_rows`: stable ascending sort by the key tuple
(`sort_values(by=self._indices)` is a stable ascending sort; insertion
sort realizes it). -/
def sortRowsDF (s : Schema) (df : DF) : DF :=
  { df with rows := List.insertionSort (rowLe s) df.rows }

/-- The `data` setter of `Aggregation`: validation, column sorting, and
(when the `sort` flag is set, its default) row sorting. -/
def dataSetter (s : Schema) (sortFlag : Bool) (df : DF) : Except String DF := do
  let v ← validateData s true df
  let v2 ← sortColumnsDF s v
  pure (if sortFlag then sortRowsDF s v2 else v2)

/-- Catalogue construction `Aggregation.__init__(data)` with the default
flags: the data setter. -/
def aggNew (s : Schema) (sortFlag : Bool) (df : DF) : Except String DF :=
  dataSetter s sortFlag df

/-- `Aggregation.add(**kargs)`: the keyword row is validated as a
one-row frame and concatenated to the current data, which goes through
the data setter again. -/
def aggAdd (s : Schema) (sortFlag : Bool) (cur : DF) (row : Row) : Except String DF := do
  let nd ← validateData s true { cols := row.map (fun p => p.1), rows := [row] }
  dataSetter s sortFlag
    { cols := cur.cols ++ nd.cols.filter (fun c => !cur.cols.contains c),
      rows := cur.rows ++ nd.rows }

/-- The cell of a current row after `Aggregation.update`: a column under
update takes the non-null value of the update row with the same key,
when there is one. -/
def updatedCell (s : Schema) (colsToUpdate : List String) (updRows : List Row)
    (r : Row) (c : String) : CellValue :=
  if colsToUpdate.contains c then
    match updRows.find? (fun u =>
        keyEqB (keyOf s.indices u) (keyOf s.indices r) && !(cellAt u c == .vNull)) with
    | some u => cellAt u c
    | none => cellAt r c
  else cellAt r c

/-- The current rows after the column-update loop of
`Aggregation.update`: the non-index schema columns present in the
validated update frame take the matching non-null update values. -/
def updatedRows (s : Schema) (cur : DF) (ud : DF) : List Row :=
  cur.rows.map (fun r =>
    cur.cols.map (fun c =>
      (c, updatedCell s
        (ud.cols.filter (fun c2 => s.columns.contains c2 && !s.indices.contains c2))
        ud.rows r c)))

/-- `Aggregation.update(data)`: without declared indices only a warning
is logged and the data is unchanged; otherwise the update frame is
validated (without adding missing columns), non-null cells of
non-index schema columns overwrite the rows with matching keys, and
the result goes through the data setter. -/
def aggUpdate (s : Schema) (sortFlag : Bool) (cur : DF) (upd : DF) : Except String DF :=
  if s.indices.isEmpty then
    .ok cur
  else do
    let ud ← validateData s false upd
    dataSetter s sortFlag { cols := cur.cols, rows := updatedRows s cur ud }

/-- Row match on the common key columns, as `pd.merge(..., on=common)`
pairs rows. -/
def rowMatches (common : List String) (ra rb : Row) : Bool :=
  common.all (fun c => pyEq (cellAt ra c) (cellAt rb c))

/-- `pd.merge(data, other, how="left", on=common)`: every left row,
extended by the non-common columns of each matching right row, or by
nulls when no right row matches. -/
def leftJoin (a b : DF) (common : List String) : DF :=
  let bExtraCols := b.cols.filter (fun c => !common.contains c)
  { cols := a.cols ++ bExtraCols,
    rows := a.rows.flatMap (fun ra =>
      let ms := b.rows.filter (rowMatches common ra)
      if ms.isEmpty then [ra ++ bExtraCols.map (fun c => (c, CellValue.vNull))]
      else ms.map (fun rb => ra ++ bExtraCols.map (fun c => (c, cellAt rb c)))) }

/-- Result of `Aggregation.merge` with one argument: the merged frame
and whether the no-common-keys warning was logged. -/
structure MergeResult where
  result : DF
  warned : Bool
deriving DecidableEq, Repr

/-- `Aggregation.merge(other)`: left join on the intersection of the
declared key-column sets; when the intersection is empty a warning is
logged and the data is returned unchanged. -/
def aggMerge (sa : Schema) (a : DF) (sb : Schema) (b : DF) : MergeResult :=
  let common := sa.indices.filter (fun c => sb.indices.contains c)
  if common.isEmpty then { result := a, warned := true }
  else { result := leftJoin a b common, warned := false }

/-- Contents of one pandas object (DataFrame or Series) on the heap:
mutations of a returned object are writes to its heap cell. -/
structure PdObject where
  table : List Row
deriving DecidableEq, Repr

/-- A heap of pandas objects, addressed by allocation order. -/
structure Heap where
  cells : List PdObject
deriving DecidableEq, Repr

/-- Read a heap reference. -/
def Heap.readRef (h : Heap) (r : ℕ) : PdObject :=
  h.cells.getD r ⟨[]⟩

/-- Overwrite a heap reference in place (a pandas in-place mutation). -/
def Heap.writeRef (h : Heap) (r : ℕ) (o : PdObject) : Heap :=
  ⟨h.cells.set r o⟩

/-- Allocate a fresh object (what `DataFrame.copy()` does). -/
def Heap.alloc (h : Heap) (o : PdObject) : Heap × ℕ :=
  (⟨h.cells ++ [o]⟩, h.cells.length)

/-- The state of an `Aggregation`: the reference its private `__data`
DataFrame lives at. -/
structure AggState where
  dataRef : ℕ
deriving DecidableEq, Repr

/-- The public `data` property: `return self.__data.copy()` — a fresh
allocation holding the same table. -/
def aggDataProp (h : Heap) (st : AggState) : Heap × ℕ :=
  Heap.alloc h (h.readRef st.dataRef)

/-- The private `_data` property: the stored reference itself, no
copy. -/
def aggDataRaw (h : Heap) (st : AggState) : Heap × ℕ :=
  (h, st.dataRef)

/-- Column selection `df[column]` as a table of its own. -/
def selectColumn (o : PdObject) (c : String) : PdObject :=
  ⟨o.table.map (fun r => [(c, cellAt r c)])⟩

/-- `Aggregation.__getitem__`: `return self.data[column]` — a selection
of the fresh copy made by the `data` property; its storage is disjoint
from the catalogue's own (whether or not it aliases the intermediate
copy is irrelevant to the stored data). -/
def aggGetItem (h : Heap) (st : AggState) (c : String) : Heap × ℕ :=
  let hr := aggDataProp h st
  Heap.alloc hr.1 (selectColumn (hr.1.readRef hr.2) c)

/-- An in-place mutation of the object a reference points at. -/
def mutateRef (h : Heap) (r : ℕ) (f : PdObject → PdObject) : Heap :=
  h.writeRef r (f (h.readRef r))

/-- A sequence of in-place mutations applied to one reference. -/
def applyMutations (h : Heap) (r : ℕ) : List (PdObject → PdObject) → Heap
  | [] => h
  | f :: fs => applyMutations (mutateRef h r f) r fs

/-- A weekly or daily cap value: a finite bound or the `float("inf")`
declared default.  The cap columns are float-typed in the catalogue;
every declared cap in the data model is whole-valued, so finite caps
are carried as integers here. -/
inductive Cap where
  | fin (n : ℤ)
  | inf
deriving DecidableEq, Repr

/-- Comparison of a finite sum against a cap (a Pyomo inequality whose
right-hand side may be infinite is trivially satisfied). -/
def Cap.leB (x : ℤ) : Cap → Bool
  | .inf => true
  | .fin m => decide (x ≤ m)

/-- Cap plus a (finite) slack term, the right-hand side
`max + slack`. -/
def Cap.addSlack : Cap → ℤ → Cap
  | .inf, _ => .inf
  | .fin m, q => .fin (m + q)

/-- Index of a decision variable `x[p, c, t, d, h]` (teacher, calendar,
task, day, time). -/
structure XIdx where
  p : String
  c : String
  t : String
  d : String
  h : String
deriving DecidableEq, Repr

/-- Index of a decision variable `y[c, t, d, h]` (calendar, task, day,
time). -/
structure YIdx where
  c : String
  t : String
  d : String
  h : String
deriving DecidableEq, Repr

/-- Attribute row of a CalendarTasks entry after construction: the
defaults (`min_time_periods` 0, `max_time_periods` inf,
`max_time_period_per_day` inf, `num_teachers` 1) have been applied, so
every field is populated. -/
structure CTRow where
  minTP : ℤ
  maxTP : Cap
  maxTPperDay : Cap
  numTeachers : ℤ
deriving DecidableEq, Repr

/-- The input aggregate `InputData`: the ordered universe lists, the
playtime catalogue with its label, and the keyed catalogues (their key
lists are unique and ordered, as constructed catalogues are). -/
structure InputData where
  classes : List String
  days : List String
  times : List String
  playtimeName : String
  playtimeKeys : List (String × String × String)
  teacherCalendarTasks : List (String × String × String)
  calendarTasks : List ((String × String) × CTRow)
  fixedTCTDT : List XIdx
deriving Repr

/-- `InputData.teachers`: `list(set(...))` of the teacher column.  The
iteration order of a Python set is a deterministic function of the list
within one process; `dedup` is the embedding's deterministic choice. -/
def teachersOf (data : InputData) : List String :=
  (data.teacherCalendarTasks.map (fun r => r.1)).dedup

/-- The key list of CalendarTasks, the index set `model.CT`. -/
def ctKeys (data : InputData) : List (String × String) :=
  data.calendarTasks.map (fun r => r.1)

/-- The index set `A`: eligible (teacher, calendar, task) triples crossed
with days and times, in build order. -/
def Aset (data : InputData) : List XIdx :=
  data.teacherCalendarTasks.flatMap (fun pct =>
    data.days.flatMap (fun d => data.times.map (fun h => ⟨pct.1, pct.2.1, pct.2.2, d, h⟩)))

/-- The index set `B`: declared (calendar, task) pairs crossed with days
and times, in build order. -/
def Bset (data : InputData) : List YIdx :=
  (ctKeys data).flatMap (fun ct =>
    data.days.flatMap (fun d => data.times.map (fun h => ⟨ct.1, ct.2, d, h⟩)))

/-- Lookup of a CalendarTasks attribute row by key. -/
def ctLookup (data : InputData) (c t : String) : Option CTRow :=
  data.calendarTasks.lookup (c, t)

/-- Parameter `num_teachers[c, t]` (meaningful on `CT` members; the
fallback is never reached by the constraints, which index within
`CT`). -/
def numTeachersOf (data : InputData) (c t : String) : ℤ :=
  ((ctLookup data c t).map (fun r => r.numTeachers)).getD 0

/-- Parameter `min_numero_horas_tareas_calendario[c, t]`. -/
def minTPOf (data : InputData) (c t : String) : ℤ :=
  ((ctLookup data c t).map (fun r => r.minTP)).getD 0

/-- Parameter `max_numero_horas_tareas_calendario[c, t]`. -/
def maxTPOf (data : InputData) (c t : String) : Cap :=
  ((ctLookup data c t).map (fun r => r.maxTP)).getD (.fin 0)

/-- The dictionary behind `model.max_numero_horas_tareas_dia_calendario`:
`data_idx["max_time_period_per_day"].to_dict()` — one entry per
CalendarTasks row (the default fill makes the column total). -/
def maxPerDayDict (data : InputData) : List ((String × String) × Cap) :=
  data.calendarTasks.map (fun r => (r.1, r.2.maxTPperDay))

/-- Parameter `max_numero_horas_tareas_dia_calendario[c, t]`. -/
def maxPerDayOf (data : InputData) (c t : String) : Cap :=
  ((maxPerDayDict data).lookup (c, t)).getD (.fin 0)

/-- A primal valuation: a value for every decision and slack variable
of the model.  Every variable of `create_model` is declared with an
integer domain (`Binary` for x and y, `NonNegativeIntegers` for the
slacks and `maximo_horas_garda`), so primal values are integers. -/
structure Primal where
  x : XIdx → ℤ
  y : YIdx → ℤ
  sp1 : String × String × String → ℤ
  sn1 : String × String × String → ℤ
  sp2 : String × String → ℤ
  sn2 : String × String → ℤ
  mGarda : ℤ

/-- Membership of `(calendar, day, time)` in the Playtime catalogue
keys. -/
def playMem (data : InputData) (c d h : String) : Bool :=
  data.playtimeKeys.contains (c, d, h)

/-- The value `y[c, t, d, h]` is fixed at by the builder's playtime
loop: on a `B` member whose task is the playtime label, 1 when
`(c, d, h)` is a Playtime key and 0 otherwise; other variables are not
fixed by this loop. -/
def yFixValue (data : InputData) (i : YIdx) : Option ℤ :=
  if i.t == data.playtimeName then some (if playMem data i.c i.d i.h then 1 else 0) else none

/-- A valuation respects the builder's variable fixings: each
FixedTeacherCalendarTaskDayTimes row has `x = 1`, and each playtime `y`
over `B` has its fixed value. -/
def respectsFixesB (data : InputData) (v : Primal) : Bool :=
  (data.fixedTCTDT.all (fun i => decide (v.x i = 1))) &&
  ((Bset data).all (fun i =>
    match yFixValue data i with
    | some q => decide (v.y i = q)
    | none => true))

/-- Constraint `one_task_per_teacher_day_time_rule(model, p, d, h)`:
the teacher's assignments in the slot equal one plus the signed
slack. -/
def oneTaskConB (data : InputData) (v : Primal) (p d h : String) : Bool :=
  decide ((((Aset data).filter (fun i => i.p == p && i.d == d && i.h == h)).map v.x).sum
    = 1 + v.sp1 (p, d, h) - v.sn1 (p, d, h))

/-- Constraint `cubrir_hora_clase_rule(model, c, d, h)`: the class slot
carries exactly one task. -/
def cubrirConB (data : InputData) (v : Primal) (c d h : String) : Bool :=
  decide ((((Bset data).filter (fun i => i.c == c && i.d == d && i.h == h)).map v.y).sum = 1)

/-- Constraint `assign_teachers_to_tasks_rule(model, c, t, d, h)`: the
staffing link, an equality with no slack term. -/
def assignConB (data : InputData) (v : Primal) (c t d h : String) : Bool :=
  decide (numTeachersOf data c t * v.y ⟨c, t, d, h⟩
    = (((Aset data).filter (fun i => i.c == c && i.t == t && i.d == d && i.h == h)).map v.x).sum)

/-- Weekly occurrence count of a (calendar, task) pair. -/
def weeklySumY (data : InputData) (v : Primal) (c t : String) : ℤ :=
  (((Bset data).filter (fun i => i.c == c && i.t == t)).map v.y).sum

/-- Constraint `horas_max_tareas_calendario_rule(model, c, t)` (weekly
maximum, elastic above). -/
def horasMaxConB (data : InputData) (v : Primal) (c t : String) : Bool :=
  Cap.leB (weeklySumY data v c t) ((maxTPOf data c t).addSlack (v.sp2 (c, t)))

/-- Constraint `horas_min_tareas_calendario_rule(model, c, t)` (weekly
minimum, elastic below). -/
def horasMinConB (data : InputData) (v : Primal) (c t : String) : Bool :=
  decide (minTPOf data c t - v.sn2 (c, t) ≤ weeklySumY data v c t)

/-- Daily occurrence count of a (calendar, task) pair on a day. -/
def dailySumY (data : InputData) (v : Primal) (c t d : String) : ℤ :=
  (((Bset data).filter (fun i => i.c == c && i.t == t && i.d == d)).map v.y).sum

/-- Constraint body of the daily-maximum rule (the second
`horas_max_tareas_calendario_rule(model, c, t, d)`). -/
def dailyMaxConB (data : InputData) (v : Primal) (c t d : String) : Bool :=
  Cap.leB (dailySumY data v c t d) (maxPerDayOf data c t)

/-- The guard of the daily-maximum rule: `(c, t) not in
model.max_numero_horas_tareas_dia_calendario` makes the rule return
`True`, which the decorator turns into `Constraint.Skip`; the
constraint is emitted exactly when the pair is a key of the param
dictionary. -/
def dailyMaxEmits (data : InputData) (c t : String) : Bool :=
  ((maxPerDayDict data).lookup (c, t)).isSome

/-- The emitted indices of `model.HorasMaxTareasDiaCalendario`,
declared over `CT × D`. -/
def dailyMaxEmitted (data : InputData) : List ((String × String) × String) :=
  (ctKeys data).flatMap (fun ct =>
    data.days.filterMap (fun d => if dailyMaxEmits data ct.1 ct.2 then some (ct, d) else none))

/-- Constraint `horas_garda_max_profesor_rule(model, p)`: the teacher's
guard hours are at most the `maximo_horas_garda` auxiliary. -/
def gardaConB (data : InputData) (v : Primal) (p : String) : Bool :=
  decide ((((Aset data).filter (fun i => i.p == p && i.t == "garda")).map v.x).sum ≤ v.mGarda)

/-- Satisfaction of every constraint the builder emits. -/
def modelSatB (data : InputData) (v : Primal) : Bool :=
  ((teachersOf data).all (fun p => data.days.all (fun d => data.times.all (fun h =>
    oneTaskConB data v p d h)))) &&
  (data.classes.all (fun c => data.days.all (fun d => data.times.all (fun h =>
    cubrirConB data v c d h)))) &&
  ((ctKeys data).all (fun ct => data.days.all (fun d => data.times.all (fun h =>
    assignConB data v ct.1 ct.2 d h)))) &&
  ((ctKeys data).all (fun ct => horasMaxConB data v ct.1 ct.2)) &&
  ((ctKeys data).all (fun ct => horasMinConB data v ct.1 ct.2)) &&
  ((dailyMaxEmitted data).all (fun e => dailyMaxConB data v e.1.1 e.1.2 e.2)) &&
  ((teachersOf data).all (fun p => gardaConB data v p))

/-- The (p, d, h) triples `model.P × model.D × model.H` in iteration
order. -/
def pdhTriples (data : InputData) : List (String × String × String) :=
  (teachersOf data).flatMap (fun p =>
    data.days.flatMap (fun d => data.times.map (fun h => (p, d, h))))

/-- The objective expression `model.obj` of `create_model`, evaluated
at a valuation. -/
def objValue (data : InputData) (v : Primal) : ℤ :=
  v.mGarda + 1000 * (
    ((ctKeys data).map (fun ct => v.sp2 ct + v.sn2 ct)).sum
    + ((pdhTriples data).map (fun i => v.sp1 i + v.sn1 i)).sum)

/-- The objective as the specification words it: `M_garda` plus 1000
times the sum of the weekly-envelope slacks plus the per-teacher
single-assignment slacks. -/
def objSpecFormula (data : InputData) (v : Primal) : ℤ :=
  v.mGarda + 1000 * (
    (((ctKeys data).map (fun ct => v.sp2 ct)).sum + ((ctKeys data).map (fun ct => v.sn2 ct)).sum)
    + (((pdhTriples data).map (fun i => v.sp1 i)).sum + ((pdhTriples data).map (fun i => v.sn1 i)).sum))

/-- One infeasibility record of `check_solver_status`: constraint name,
index tuple, and signed slack (the printed expression string is the
untracked rendering of the constraint). -/
structure InfeasEntry where
  conName : String
  index : List String
  slack : ℤ
deriving DecidableEq, Repr

/-- The constraint families of the model in declaration order (the
order `model.component_objects(Constraint)` yields them), each with its
emitted index tuples. -/
def familyList (data : InputData) : List (String × List (List String)) :=
  [("oneTaskPerTeacherDayTime", (pdhTriples data).map (fun i => [i.1, i.2.1, i.2.2])),
   ("cubrirHoraClase", data.classes.flatMap (fun c =>
      data.days.flatMap (fun d => data.times.map (fun h => [c, d, h])))),
   ("assignTeachersToTasks", (ctKeys data).flatMap (fun ct =>
      data.days.flatMap (fun d => data.times.map (fun h => [ct.1, ct.2, d, h])))),
   ("horasMaxTareasCalendario", (ctKeys data).map (fun ct => [ct.1, ct.2])),
   ("horasMinTareasCalendario", (ctKeys data).map (fun ct => [ct.1, ct.2])),
   ("HorasMaxTareasDiaCalendario", (dailyMaxEmitted data).map (fun e => [e.1.1, e.1.2, e.2])),
   ("HorasGuardiaMaxProfesor", (teachersOf data).map (fun p => [p]))]

/-- Which families have a variable named `slack_pos_{name}`: only
`slack_pos_oneTaskPerTeacherDayTime` and
`slack_pos_horasMaxTareasCalendario` are declared by
`create_model`. -/
def hasSlackPosVar (name : String) : Bool :=
  name == "oneTaskPerTeacherDayTime" || name == "horasMaxTareasCalendario"

/-- Which families have a variable named `slack_neg_{name}`: only
`slack_neg_oneTaskPerTeacherDayTime` and
`slack_neg_horasMaxTareasCalendario` are declared (the weekly-minimum
constraint's slack is the latter, named after the maximum family). -/
def hasSlackNegVar (name : String) : Bool :=
  name == "oneTaskPerTeacherDayTime" || name == "horasMaxTareasCalendario"

/-- Value of `slack_pos_{name}[i]` at a valuation. -/
def slackPosVal (v : Primal) : String → List String → ℤ
  | "oneTaskPerTeacherDayTime", [p, d, h] => v.sp1 (p, d, h)
  | "horasMaxTareasCalendario", [c, t] => v.sp2 (c, t)
  | _, _ => 0

/-- Value of `slack_neg_{name}[i]` at a valuation. -/
def slackNegVal (v : Primal) : String → List String → ℤ
  | "oneTaskPerTeacherDayTime", [p, d, h] => v.sn1 (p, d, h)
  | "horasMaxTareasCalendario", [c, t] => v.sn2 (c, t)
  | _, _ => 0

/-- The infeasibility enumeration of `check_solver_status`: every
constraint family owning a matching positive or negative slack variable
contributes the indices whose signed slack (positive minus negative,
a missing side counting zero) is nonzero. -/
def infeasReport (data : InputData) (v : Primal) : List InfeasEntry :=
  (familyList data).flatMap (fun fam =>
    if hasSlackPosVar fam.1 || hasSlackNegVar fam.1 then
      fam.2.filterMap (fun i =>
        let sp := if hasSlackPosVar fam.1 then slackPosVal v fam.1 i else 0
        let sn := if hasSlackNegVar fam.1 then slackNegVal v fam.1 i else 0
        if sp - sn ≠ 0 then some ⟨fam.1, i, sp - sn⟩ else none)
    else [])

/-- `", ".join(teachers)`. -/
def strJoin (sep : String) : List String → String
  | [] => ""
  | [x] => x
  | x :: xs => x ++ sep ++ strJoin sep xs

/-- A decoded calendar: days, times, name and the `(day, time, task)`
rows handed to the `Calendar` output value. -/
structure CalendarOut where
  days : List String
  times : List String
  name : String
  tasks : List (String × String × String)
deriving DecidableEq, Repr

/-- The pre-seeded grid of a calendar: the playtime label on Playtime
keys, blank elsewhere. -/
def seedGrid (data : InputData) (name : String) : (String × String) → String :=
  fun dt => if playMem data name dt.1 dt.2 then data.playtimeName else ""

/-- The teachers assigned to a `B` member in a solution, in `A`
order. -/
def classTeachersAt (data : InputData) (v : Primal) (i : YIdx) : List String :=
  ((Aset data).filter (fun a =>
    a.c == i.c && a.t == i.t && a.d == i.d && a.h == i.h && decide (v.x a > 0))).map (fun a => a.p)

/-- One step of the class-calendar loop of `get_class_calendars`: a `B`
member of this class with positive `y` writes its cell when a teacher
is assigned or the task is the playtime label. -/
def classCellStep (data : InputData) (v : Primal) (c : String)
    (grid : (String × String) → String) (i : YIdx) : (String × String) → String :=
  if i.c == c && decide (v.y i > 0) then
    let ts := classTeachersAt data v i
    if !ts.isEmpty || i.t == data.playtimeName then
      fun dt => if dt = (i.d, i.h) then
          (if i.t == data.playtimeName then i.t else i.t ++ " (" ++ strJoin ", " ts ++ ")")
        else grid dt
    else grid
  else grid

/-- The decoded grid of one class: the seeded grid after the `B`
loop. -/
def classGrid (data : InputData) (v : Primal) (c : String) : (String × String) → String :=
  (Bset data).foldl (classCellStep data v c) (seedGrid data c)

/-- The `(day, time, task)` rows of a grid, in the dictionary insertion
order `days × times`. -/
def gridRows (data : InputData) (grid : (String × String) → String) :
    List (String × String × String) :=
  data.days.flatMap (fun d => data.times.map (fun h => (d, h, grid (d, h))))

/-- `OptimizationModel.get_class_calendars`: one calendar per class, in
class order. -/
def getClassCalendars (data : InputData) (v : Primal) : List CalendarOut :=
  data.classes.map (fun c => ⟨data.days, data.times, c, gridRows data (classGrid data v c)⟩)

/-- One step of the teacher-calendar loop of `get_teacher_calendars`:
an `A` member of this teacher with positive `x` writes its cell. -/
def teacherCellStep (data : InputData) (v : Primal) (p : String)
    (grid : (String × String) → String) (a : XIdx) : (String × String) → String :=
  if a.p == p && decide (v.x a > 0) then
    fun dt => if dt = (a.d, a.h) then
        (if a.t == data.playtimeName || a.c == p then a.t else a.t ++ " (" ++ a.c ++ ")")
      else grid dt
  else grid

/-- The decoded grid of one teacher: the seeded grid after the `A`
loop. -/
def teacherGrid (data : InputData) (v : Primal) (p : String) : (String × String) → String :=
  (Aset data).foldl (teacherCellStep data v p) (seedGrid data p)

/-- `OptimizationModel.get_teacher_calendars`: one calendar per teacher,
in teacher order. -/
def getTeacherCalendars (data : InputData) (v : Primal) : List CalendarOut :=
  (teachersOf data).map (fun p => ⟨data.days, data.times, p, gridRows data (teacherGrid data v p)⟩)

/-- `OptimizationModel.execute`'s decoded output: the class calendars
followed by the teacher calendars. -/
def executeCalendars (data : InputData) (v : Primal) : List CalendarOut :=
  getClassCalendars data v ++ getTeacherCalendars data v

/-- The declared schema of the CalendarTasks catalogue
(`xest_hora/input/calendar_tasks.py`). -/
def calendarTasksSchema : Schema :=
  { columns := ["calendar", "task", "min_time_periods", "max_time_periods",
      "max_time_period_per_day", "num_teachers"],
    indices := ["calendar", "task"],
    requiredColumns := ["calendar", "task"],
    defaults := [("min_time_periods", .vInt 0), ("max_time_periods", .vInf),
      ("max_time_period_per_day", .vInf), ("num_teachers", .vInt 1)],
    columnsType := [("calendar", .tStr), ("task", .tStr), ("min_time_periods", .tInt),
      ("max_time_periods", .tFloat), ("max_time_period_per_day", .tFloat),
      ("num_teachers", .tInt)] }

/-- A one-key integer catalogue schema (the docstring examples of
`Aggregation` use such shapes). -/
def exSchemaK : Schema :=
  { columns := ["k"], indices := ["k"], requiredColumns := ["k"],
    defaults := [], columnsType := [("k", .tInt)] }

/-- The schema of the defaults docstring example of `Aggregation.data`:
key `index1`, optional integer columns with defaults 1 and 2. -/
def exSchemaDef : Schema :=
  { columns := ["index1", "column1", "column2"], indices := ["index1"],
    requiredColumns := ["index1"],
    defaults := [("column1", .vInt 1), ("column2", .vInt 2)],
    columnsType := [("index1", .tInt), ("column1", .tInt), ("column2", .tInt)] }

/-- A catalogue schema whose only key column is `j` (key set disjoint
from `exSchemaK`). -/
def exSchemaJ : Schema :=
  { columns := ["j", "w"], indices := ["j"], requiredColumns := ["j"],
    defaults := [], columnsType := [("j", .tInt), ("w", .tInt)] }

/-- Input whose two rows have raw-distinct keys (the text cell and the
integer cell) that coincide after integer coercion. -/
def exDupInput : DF :=
  { cols := ["k"], rows := [[("k", .vStr "1")], [("k", .vInt 1)]] }

/-- A minimal InputData: one class, one day, one time, one declared
(class, task) pair with every attribute left at its default. -/
def exData1 : InputData :=
  { classes := ["X"], days := ["Mo"], times := ["t1"],
    playtimeName := "recreo", playtimeKeys := [],
    teacherCalendarTasks := [("T1", "X", "a")],
    calendarTasks := [(("X", "a"),
      { minTP := 0, maxTP := .inf, maxTPperDay := .inf, numTeachers := 1 })],
    fixedTCTDT := [] }

/-- An InputData with a playtime slot: class X on Monday with two
periods, break fixed at the first, task a at the second. -/
def exData2 : InputData :=
  { classes := ["X"], days := ["Mo"], times := ["t1", "t2"],
    playtimeName := "recreo", playtimeKeys := [("X", "Mo", "t1")],
    teacherCalendarTasks := [("T1", "X", "a")],
    calendarTasks := [
      (("X", "recreo"), { minTP := 0, maxTP := .inf, maxTPperDay := .inf, numTeachers := 0 }),
      (("X", "a"), { minTP := 1, maxTP := .fin 1, maxTPperDay := .fin 1, numTeachers := 1 })],
    fixedTCTDT := [] }

/-- A solver solution of `exData2`: break at (Mo, t1), task a taught by
T1 at (Mo, t2); the teacher idles in the break slot, compensated by the
negative single-assignment slack. -/
def exSol2 : Primal :=
  { x := fun i => if i = ⟨"T1", "X", "a", "Mo", "t2"⟩ then 1 else 0,
    y := fun i => if i = ⟨"X", "recreo", "Mo", "t1"⟩ ∨ i = ⟨"X", "a", "Mo", "t2"⟩ then 1 else 0,
    sp1 := fun _ => 0,
    sn1 := fun i => if i = ("T1", "Mo", "t1") then 1 else 0,
    sp2 := fun _ => 0,
    sn2 := fun _ => 0,
    mGarda := 0 }

/-- `exSol2` with a junk x-value on an index outside `A`: the two
valuations agree on every model variable. -/
def exSol2b : Primal :=
  { exSol2 with x := fun i => if i = ⟨"Z", "Z", "Z", "Z", "Z"⟩ then 7 else exSol2.x i }

/-- Slack values whose positive and negative weekly-envelope components
cancel at the pair (X, a). -/
def exSlack : Primal :=
  { x := fun _ => 0, y := fun _ => 0,
    sp1 := fun _ => 0, sn1 := fun _ => 0,
    sp2 := fun ct => if ct = ("X", "a") then 1 else 0,
    sn2 := fun ct => if ct = ("X", "a") then 1 else 0,
    mGarda := 0 }

/-- A one-cell heap: the catalogue's stored table at reference 0. -/
def exHeap : Heap :=
  { cells := [{ table := [[("a", .vInt 1)]] }] }

/-- The catalogue state pointing at reference 0 of `exHeap`. -/
def exAggState : AggState :=
  { dataRef := 0 }

/-- The transformation the validation pipeline applies to one surviving
row: append the missing-column defaults, fill nulls, coerce types, and
restrict to the schema columns in order. -/
def processRow (s : Schema) (cols2 : List String) (pairs : List (String × CellValue))
    (r : Row) : Option Row :=
  (coerceRow s cols2 (fillRowCells s cols2 (r ++ pairs))).map (normalizeRow s.columns)

/-- The last row of a list carrying the given key tuple. -/
def lastRowWithKey (indices : List String) (rows : List Row) (k : List CellValue) : Option Row :=
  (rows.filter (fun r => keyEqB (keyOf indices r) k)).getLast?

/-- A row whose key cells are fixed points of the null-filling and
type-coercion steps (in particular, key cells already carrying their
declared type). -/
def KeyStableRow (s : Schema) (r : Row) : Prop :=
  ∀ c ∈ s.indices,
    fillCell s c (cellAt r c) = cellAt r c ∧ coerceCell s c (cellAt r c) = some (cellAt r c)

instance (s : Schema) (r : Row) : Decidable (KeyStableRow s r) :=
  List.decidableBAll _ s.indices

/-- The catalogue key law: no two rows share a key tuple and the rows
are sorted ascending by key. -/
def KeyInvariant (s : Schema) (out : DF) : Prop :=
  (out.rows.map (keyOf s.indices)).Nodup
  ∧ out.rows.Pairwise (rowLe s)

instance (s : Schema) (out : DF) : Decidable (KeyInvariant s out) :=
  instDecidableAnd

/-- `exSol2` with a different weekly-envelope slack: the decision
variables x and y are untouched. -/
def exSolSlacked : Primal :=
  { exSol2 with sp2 := fun _ => 5 }

/-- The defaults docstring input of `Aggregation.data`: three rows, the
third missing `column1`, all missing `column2`. -/
def exDefInput : DF :=
  { cols := ["index1", "column1"],
    rows := [[("index1", .vInt 0), ("column1", .vInt 1)],
             [("index1", .vInt 1), ("column1", .vInt 2)],
             [("index1", .vInt 2)]] }

/-- The constructed catalogue of `exDefInput`: `column2` filled with its
default 2, the null `column1` cell filled with its default 1. -/
def exDefOut : DF :=
  { cols := ["index1", "column1", "column2"],
    rows := [[("index1", .vInt 0), ("column1", .vInt 1), ("column2", .vInt 2)],
             [("index1", .vInt 1), ("column1", .vInt 2), ("column2", .vInt 2)],
             [("index1", .vInt 2), ("column1", .vInt 1), ("column2", .vInt 2)]] }

/-- The constructed catalogue of `exDupInput`: both rows survive (their
raw keys differ) and coercion makes their keys collide. -/
def exDupOut : DF :=
  { cols := ["k"], rows := [[("k", .vInt 1)], [("k", .vInt 1)]] }

/-- A CalendarTasks input row with only the required key columns. -/
def ctNewInput : DF :=
  { cols := ["calendar", "task"], rows := [[("calendar", .vStr "X"), ("task", .vStr "a")]] }

/-- The constructed CalendarTasks catalogue of `ctNewInput`: every
attribute filled with its declared default. -/
def ctNewOut : DF :=
  { cols := calendarTasksSchema.columns,
    rows := [[("calendar", .vStr "X"), ("task", .vStr "a"), ("min_time_periods", .vInt 0),
      ("max_time_periods", .vInf), ("max_time_period_per_day", .vInf),
      ("num_teachers", .vInt 1)]] }

/-- A one-row catalogue frame keyed by `k`. -/
def exMergeA : DF :=
  { cols := ["k"], rows := [[("k", .vInt 1)]] }

/-- A one-row catalogue frame keyed by `j`. -/
def exMergeB : DF :=
  { cols := ["j", "w"], rows := [[("j", .vInt 1), ("w", .vInt 2)]] }

/-! ### Order lemmas for the sort comparator -/

/-- `pyEq` is equality of sort measures. -/
theorem pyEq_iff_cellMeasure (a b : CellValue) :
    pyEq a b = true ↔ cellMeasure a = cellMeasure b := by
  cases a <;> cases b <;>
    simp only [pyEq, cellMeasure, toLex_inj, Prod.mk.injEq, beq_iff_eq,
      Bool.false_eq_true, false_iff, true_iff, and_true, true_and, and_false] <;>
    simp

theorem keyLe_trans (a b c : List CellValue)
    (hab : keyLe a b = true) (hbc : keyLe b c = true) : keyLe a c = true := by
  induction a generalizing b c with
  | nil => rfl
  | cons x xs ih =>
    cases b with
    | nil => exact nomatch hab
    | cons y ys =>
      cases c with
      | nil => exact nomatch hbc
      | cons z zs =>
        simp only [keyLe] at hab hbc ⊢
        by_cases hxy : cellMeasure x = cellMeasure y <;>
          by_cases hyz : cellMeasure y = cellMeasure z
        · rw [if_pos hxy] at hab
          rw [if_pos hyz] at hbc
          rw [if_pos (hxy.trans hyz)]
          exact ih ys zs hab hbc
        · rw [if_pos hxy] at hab
          have hxz : ¬ cellMeasure x = cellMeasure z := by rw [hxy]; exact hyz
          rw [if_neg hyz] at hbc
          rw [if_neg hxz]
          unfold cellLe at hbc ⊢
          rw [hxy]
          exact hbc
        · have hxz : ¬ cellMeasure x = cellMeasure z := by
            intro h; exact hxy (h.trans hyz.symm)
          rw [if_neg hxy] at hab
          rw [if_neg hxz]
          unfold cellLe at hab ⊢
          rw [← hyz] at *
          exact hab
        · rw [if_neg hxy] at hab
          rw [if_neg hyz] at hbc
          unfold cellLe at hab hbc
          by_cases hxz : cellMeasure x = cellMeasure z
          · exfalso
            have h1 := le_antisymm (of_decide_eq_true hab)
              (hxz ▸ of_decide_eq_true hbc)
            exact hxy h1
          · rw [if_neg hxz]
            exact decide_eq_true
              (le_trans (of_decide_eq_true hab) (of_decide_eq_true hbc))

theorem keyLe_total (a b : List CellValue) :
    keyLe a b = true ∨ keyLe b a = true := by
  induction a generalizing b with
  | nil => left; rfl
  | cons x xs ih =>
    cases b with
    | nil => right; rfl
    | cons y ys =>
      simp only [keyLe]
      by_cases hxy : cellMeasure x = cellMeasure y
      · rw [if_pos hxy, if_pos hxy.symm]
        exact ih ys
      · have hyx : ¬ cellMeasure y = cellMeasure x := fun h => hxy h.symm
        rw [if_neg hxy, if_neg hyx]
        unfold cellLe
        rcases le_total (cellMeasure x) (cellMeasure y) with h | h
        · left; exact decide_eq_true h
        · right; exact decide_eq_true h


/-! ### List helper lemmas -/

theorem sum_map_add_split {α : Type} (l : List α) (f g : α → ℤ) :
    (l.map (fun a => f a + g a)).sum = (l.map f).sum + (l.map g).sum := by
  induction l with
  | nil => simp
  | cons a l ih => simp [ih]; ring

theorem lookup_isSome_iff_mem_keys {α β : Type} [BEq α] [LawfulBEq α] (l : List (α × β)) (a : α) :
    (l.lookup a).isSome = true ↔ a ∈ l.map Prod.fst := by
  induction l with
  | nil => simp [List.lookup]
  | cons p l ih =>
    obtain ⟨k, b⟩ := p
    by_cases h : a = k
    · subst h
      simp [List.lookup]
    · have hbeq : (a == k) = false := beq_eq_false_iff_ne.mpr h
      simp [List.lookup, hbeq, ih, h]

theorem maxPerDayDict_keys (data : InputData) :
    (maxPerDayDict data).map Prod.fst = ctKeys data := by
  unfold maxPerDayDict ctKeys
  rw [List.map_map]
  rfl

theorem mem_Bset_iff (data : InputData) (i : YIdx) :
    i ∈ Bset data ↔ ((i.c, i.t) ∈ ctKeys data ∧ i.d ∈ data.days ∧ i.h ∈ data.times) := by
  obtain ⟨c, t, d, h⟩ := i
  unfold Bset
  rw [List.mem_flatMap]
  constructor
  · rintro ⟨ct, hct, h2⟩
    rw [List.mem_flatMap] at h2
    obtain ⟨d', hd', h3⟩ := h2
    rw [List.mem_map] at h3
    obtain ⟨h', hh', heq⟩ := h3
    cases heq
    exact ⟨by simpa using hct, hd', hh'⟩
  · rintro ⟨hct, hd, hh⟩
    exact ⟨(c, t), hct, List.mem_flatMap.mpr ⟨d, hd, List.mem_map.mpr ⟨h, hh, rfl⟩⟩⟩

/-! ### Heap lemmas for the copying accessors -/

theorem readRef_alloc (h : Heap) (o : PdObject) (r : ℕ) (hr : r < h.cells.length) :
    (h.alloc o).1.readRef r = h.readRef r := by
  unfold Heap.alloc Heap.readRef
  simp only [List.getD_eq_getElem?_getD, List.getElem?_append]
  rw [if_pos hr]

theorem readRef_writeRef_ne (h : Heap) (r r' : ℕ) (o : PdObject) (hne : r ≠ r') :
    (h.writeRef r o).readRef r' = h.readRef r' := by
  unfold Heap.writeRef Heap.readRef
  simp only [List.getD_eq_getElem?_getD, List.getElem?_set_ne hne]

theorem applyMutations_readRef_ne (muts : List (PdObject → PdObject)) (h : Heap)
    (r r' : ℕ) (hne : r ≠ r') :
    (applyMutations h r muts).readRef r' = h.readRef r' := by
  induction muts generalizing h with
  | nil => rfl
  | cons f fs ih =>
    show (applyMutations (mutateRef h r f) r fs).readRef r' = h.readRef r'
    rw [ih, mutateRef, readRef_writeRef_ne _ _ _ _ hne]

theorem applyMutations_alloc_readRef (h2 : Heap) (o : PdObject) (r : ℕ)
    (muts : List (PdObject → PdObject)) (hr : r < h2.cells.length) :
    (applyMutations (h2.alloc o).1 (h2.alloc o).2 muts).readRef r = h2.readRef r := by
  have hne : (h2.alloc o).2 ≠ r := by
    show h2.cells.length ≠ r
    exact (Nat.ne_of_lt hr).symm
  rw [applyMutations_readRef_ne _ _ _ _ hne]
  exact readRef_alloc h2 o r hr

/-! ### C2 — the objective -/

/-- C2: for every input and every primal valuation, the built objective
equals `M_garda + 1000 * (sum of the weekly-envelope slacks sp2 and sn2
over CT, plus the sum of the single-assignment slacks sp1 and sn1 over
teachers × days × times)`. -/
theorem C2_objective_formula (data : InputData) (v : Primal) :
    objValue data v = objSpecFormula data v := by
  unfold objValue objSpecFormula
  rw [sum_map_add_split, sum_map_add_split]

/-! ### C10 — the accessors copy -/

/-- C10: the `data` property and `__getitem__` return copies: any
sequence of in-place mutations applied to the returned object leaves
the catalogue's stored table unchanged. -/
theorem C10_accessors_copy (h : Heap) (st : AggState) (c : String)
    (muts : List (PdObject → PdObject)) (hval : st.dataRef < h.cells.length) :
    ((applyMutations (aggDataProp h st).1 (aggDataProp h st).2 muts).readRef st.dataRef
      = h.readRef st.dataRef)
    ∧ ((applyMutations (aggGetItem h st c).1 (aggGetItem h st c).2 muts).readRef st.dataRef
      = h.readRef st.dataRef) := by
  have hval2 : st.dataRef < (h.alloc (h.readRef st.dataRef)).1.cells.length := by
    simp only [Heap.alloc, List.length_append]
    exact Nat.lt_succ_of_lt hval
  constructor
  · exact applyMutations_alloc_readRef h _ st.dataRef muts hval
  · exact (applyMutations_alloc_readRef _ _ st.dataRef muts hval2).trans
      (readRef_alloc h _ st.dataRef hval)

/-- Witness for C10 at a concrete heap: the stored table survives a
mutation that empties the returned copy. -/
theorem C10_accessors_copy_witness :
    ((applyMutations (aggDataProp exHeap exAggState).1 (aggDataProp exHeap exAggState).2
        [fun _ => { table := [] }]).readRef exAggState.dataRef
      = exHeap.readRef exAggState.dataRef)
    ∧ ((applyMutations (aggGetItem exHeap exAggState "a").1 (aggGetItem exHeap exAggState "a").2
        [fun _ => { table := [] }]).readRef exAggState.dataRef
      = exHeap.readRef exAggState.dataRef) :=
  C10_accessors_copy exHeap exAggState "a" [fun _ => { table := [] }] (by decide)

/-! ### C9 — merge on disjoint keys -/

/-- C9: when the declared key-column sets of the two catalogues are
disjoint, `a.merge(b)` warns about the missing common keys and returns
a's rows unchanged. -/
theorem C9_merge_disjoint_identity (sa : Schema) (a : DF) (sb : Schema) (b : DF)
    (hdis : ∀ c ∈ sa.indices, c ∉ sb.indices) :
    aggMerge sa a sb b = { result := a, warned := true } := by
  unfold aggMerge
  have hfil : sa.indices.filter (fun c => sb.indices.contains c) = [] := by
    rw [List.filter_eq_nil_iff]
    intro c hc
    intro hcon
    exact hdis c hc (List.elem_iff.mp hcon)
  rw [hfil]
  rfl

/-- Witness for C9: merging the j-keyed catalogue into the k-keyed one
returns the k-catalogue's single row unchanged, with the warning. -/
theorem C9_merge_disjoint_identity_witness :
    aggMerge exSchemaK exMergeA exSchemaJ exMergeB = { result := exMergeA, warned := true } :=
  C9_merge_disjoint_identity exSchemaK exMergeA exSchemaJ exMergeB (by decide)

/-! ### C1 — the daily-maximum guard -/

/-- C1 fails on the code: the pair (X, a) of `exData1` has no declared
daily cap (its `max_time_period_per_day` is the default infinity), yet
the daily-maximum constraint is emitted for day Mo rather than
skipped. -/
theorem C1_daily_cap_skip_counterexample :
    maxPerDayOf exData1 "X" "a" = Cap.inf
    ∧ ((("X", "a"), "Mo") ∈ dailyMaxEmitted exData1) :=
  ⟨rfl, by decide⟩

/-- C1 amended: the daily-maximum constraint is emitted for every
(c, t) in CalendarTasks and every day — the skip guard tests membership
in the param dictionary, whose keys are all of CT because the default
fill makes the column total — and when the pair has no declared daily
cap (infinite default) the emitted constraint is trivially satisfied by
every valuation. -/
theorem C1_daily_cap_emitted_for_all (data : InputData) (c t d : String) :
    ((((c, t), d) ∈ dailyMaxEmitted data) ↔ ((c, t) ∈ ctKeys data ∧ d ∈ data.days))
    ∧ (maxPerDayOf data c t = Cap.inf → ∀ v : Primal, dailyMaxConB data v c t d = true) := by
  constructor
  · constructor
    · intro hmem
      unfold dailyMaxEmitted at hmem
      rw [List.mem_flatMap] at hmem
      obtain ⟨ct, hct, h2⟩ := hmem
      rw [List.mem_filterMap] at h2
      obtain ⟨d', hd', heq⟩ := h2
      by_cases hem : dailyMaxEmits data ct.1 ct.2 = true
      · rw [if_pos hem, Option.some_inj] at heq
        have h4 : ct = (c, t) := congrArg Prod.fst heq
        have h5 : d' = d := congrArg Prod.snd heq
        subst h4
        subst h5
        exact ⟨hct, hd'⟩
      · rw [if_neg hem] at heq
        exact absurd heq (by simp)
    · rintro ⟨hct, hd⟩
      have hem : dailyMaxEmits data c t = true := by
        unfold dailyMaxEmits
        rw [lookup_isSome_iff_mem_keys, maxPerDayDict_keys]
        exact hct
      unfold dailyMaxEmitted
      rw [List.mem_flatMap]
      refine ⟨(c, t), hct, ?_⟩
      rw [List.mem_filterMap]
      exact ⟨d, hd, by rw [if_pos hem]⟩
  · intro hinf v
    unfold dailyMaxConB
    rw [hinf]
    rfl

/-- Witness for the amended C1: the default-capped pair of `exData1` is
emitted on Mo and its constraint holds at an arbitrary valuation. -/
theorem C1_daily_cap_emitted_for_all_witness :
    (((("X", "a"), "Mo") ∈ dailyMaxEmitted exData1))
    ∧ dailyMaxConB exData1 exSlack "X" "a" "Mo" = true :=
  ⟨(C1_daily_cap_emitted_for_all exData1 "X" "a" "Mo").1.mpr (by decide),
   (C1_daily_cap_emitted_for_all exData1 "X" "a" "Mo").2 rfl exSlack⟩

/-! ### C3 — the slack scan -/

/-- C3 fails on the code: at `exSlack` both weekly-envelope slacks of
(X, a) are 1 (nonzero, in particular the weekly-minimum family's slack
is nonzero), yet the infeasibility report is empty, because the scan
reports the difference of the paired slacks. -/
theorem C3_slack_scan_counterexample :
    ((familyList exData1).lookup "horasMinTareasCalendario" = some [["X", "a"]])
    ∧ exSlack.sn2 ("X", "a") = 1
    ∧ exSlack.sp2 ("X", "a") = 1
    ∧ infeasReport exData1 exSlack = [] :=
  ⟨by decide, by decide, by decide, by decide⟩

/-- C3 amended: the report contains exactly the entries whose family
owns a matching `slack_pos_`/`slack_neg_` variable (only the
single-assignment and the weekly-envelope families do; the
weekly-minimum family owns none and is skipped, its slack being
named after the weekly-maximum family) and whose signed slack —
positive minus negative — is nonzero; indices whose two slacks cancel
are omitted. -/
theorem C3_slack_scan_characterization (data : InputData) (v : Primal) (e : InfeasEntry) :
    (e ∈ infeasReport data v
      ↔ ∃ fam ∈ familyList data,
          (hasSlackPosVar fam.1 || hasSlackNegVar fam.1) = true
          ∧ e.conName = fam.1 ∧ e.index ∈ fam.2
          ∧ e.slack = slackPosVal v fam.1 e.index - slackNegVal v fam.1 e.index
          ∧ e.slack ≠ 0)
    ∧ hasSlackPosVar "horasMinTareasCalendario" = false
    ∧ hasSlackNegVar "horasMinTareasCalendario" = false := by
  refine ⟨?_, rfl, rfl⟩
  have hpn : ∀ n, hasSlackNegVar n = hasSlackPosVar n := fun _ => rfl
  obtain ⟨n, idx, sl⟩ := e
  unfold infeasReport
  rw [List.mem_flatMap]
  constructor
  · rintro ⟨fam, hfam, hmem⟩
    by_cases hsl : (hasSlackPosVar fam.1 || hasSlackNegVar fam.1) = true
    · rw [if_pos hsl] at hmem
      rw [List.mem_filterMap] at hmem
      obtain ⟨i, hi, heq⟩ := hmem
      have hpos : hasSlackPosVar fam.1 = true := by
        have hor : hasSlackPosVar fam.1 = true ∨ hasSlackNegVar fam.1 = true := by
          simpa using hsl
        rcases hor with h | h
        · exact h
        · rw [hpn] at h
          exact h
      have hneg : hasSlackNegVar fam.1 = true := by
        rw [hpn]
        exact hpos
      simp only [hpos, hneg, if_true] at heq
      by_cases hnz : slackPosVal v fam.1 i - slackNegVal v fam.1 i ≠ 0
      · rw [if_pos hnz, Option.some_inj] at heq
        injection heq with e1 e2 e3
        subst e1
        subst e2
        subst e3
        exact ⟨fam, hfam, hsl, rfl, hi, rfl, hnz⟩
      · rw [if_neg hnz] at heq
        exact absurd heq (by simp)
    · rw [if_neg hsl] at hmem
      exact absurd hmem (List.not_mem_nil _)
  · rintro ⟨fam, hfam, hsl, hname, hidx, hslack, hnz⟩
    have hname2 : n = fam.1 := hname
    have hidx2 : idx ∈ fam.2 := hidx
    have hslack2 : sl = slackPosVal v fam.1 idx - slackNegVal v fam.1 idx := by
      have h0 : sl = slackPosVal v fam.1 idx - slackNegVal v fam.1 idx := hslack
      exact h0
    have hnz3 : sl ≠ 0 := hnz
    refine ⟨fam, hfam, ?_⟩
    rw [if_pos hsl]
    rw [List.mem_filterMap]
    refine ⟨idx, hidx2, ?_⟩
    have hpos : hasSlackPosVar fam.1 = true := by
      have hor : hasSlackPosVar fam.1 = true ∨ hasSlackNegVar fam.1 = true := by
        simpa using hsl
      rcases hor with h | h
      · exact h
      · rw [hpn] at h
        exact h
    have hneg : hasSlackNegVar fam.1 = true := by
      rw [hpn]
      exact hpos
    simp only [hpos, hneg, if_true]
    subst hname2
    have hnz2 : slackPosVal v fam.1 idx - slackNegVal v fam.1 idx ≠ 0 := by
      rw [← hslack2]
      exact hnz3
    rw [if_pos hnz2, Option.some_inj]
    rw [hslack2]

/-! ### C6 — playtime fixing -/

/-- C6: for every `B` member whose task is the playtime label, a
valuation respecting the builder's fixings has `y = 1` exactly when
`(calendar, day, time)` is a Playtime key. -/
theorem C6_playtime_fixed (data : InputData) (v : Primal) (i : YIdx)
    (hiB : i ∈ Bset data) (ht : i.t = data.playtimeName)
    (hfix : respectsFixesB data v = true) :
    (v.y i = 1 ↔ playMem data i.c i.d i.h = true) := by
  unfold respectsFixesB at hfix
  rw [Bool.and_eq_true] at hfix
  have h2 := List.all_eq_true.mp hfix.2 i hiB
  have hfv : yFixValue data i = some (if playMem data i.c i.d i.h then (1 : ℤ) else 0) := by
    unfold yFixValue
    rw [if_pos (beq_iff_eq.mpr ht)]
  rw [hfv] at h2
  have h3 : v.y i = (if playMem data i.c i.d i.h then (1 : ℤ) else 0) := of_decide_eq_true h2
  by_cases hp : playMem data i.c i.d i.h = true
  · rw [if_pos hp] at h3
    simp [h3, hp]
  · rw [if_neg hp] at h3
    constructor
    · intro h1
      rw [h3] at h1
      norm_num at h1
    · intro h1
      exact absurd h1 hp

/-- Witness for C6: in `exData2` the playtime variable of the seeded
slot (X, Mo, t1) is 1 and the slot is a Playtime key. -/
theorem C6_playtime_fixed_witness :
    (exSol2.y ⟨"X", "recreo", "Mo", "t1"⟩ = 1 ↔ playMem exData2 "X" "Mo" "t1" = true) :=
  C6_playtime_fixed exData2 exSol2 ⟨"X", "recreo", "Mo", "t1"⟩ (by decide) rfl (by decide)

/-! ### C5 — the staffing link -/

/-- C5: the staffing-link family is declared over all of `B`; in every
valuation satisfying the emitted constraints the staffed head count
equals `num_teachers[c, t] * y[c, t, d, h]`; and the constraint
involves no slack variable — its truth value depends only on the x and
y components of the valuation. -/
theorem C5_staffing_link (data : InputData) (v : Primal) (i : YIdx)
    (hiB : i ∈ Bset data) (hsat : modelSatB data v = true) :
    ((familyList data).lookup "assignTeachersToTasks"
        = some ((Bset data).map (fun j => [j.c, j.t, j.d, j.h])))
    ∧ (numTeachersOf data i.c i.t * v.y i
        = (((Aset data).filter (fun a =>
            a.c == i.c && a.t == i.t && a.d == i.d && a.h == i.h)).map v.x).sum)
    ∧ (∀ w : Primal, w.x = v.x → w.y = v.y →
        assignConB data w i.c i.t i.d i.h = assignConB data v i.c i.t i.d i.h) := by
  obtain ⟨c, t, d, h⟩ := i
  refine ⟨?_, ?_, ?_⟩
  · simp only [familyList, List.lookup]
    norm_num
    simp only [Bset, List.map_flatMap, List.map_map]
    rfl
  · simp only [modelSatB, Bool.and_eq_true] at hsat
    obtain ⟨⟨⟨⟨⟨⟨h1, h2⟩, h3⟩, h4⟩, h5⟩, h6⟩, h7⟩ := hsat
    rw [mem_Bset_iff] at hiB
    obtain ⟨hct, hd, hh⟩ := hiB
    have ha := List.all_eq_true.mp h3 (c, t) hct
    have hb := List.all_eq_true.mp ha d hd
    have hc2 := List.all_eq_true.mp hb h hh
    exact of_decide_eq_true hc2
  · intro w hxw hyw
    unfold assignConB
    rw [hxw, hyw]

/-- Witness for C5: the staffed slot (X, a, Mo, t2) of the solved
`exData2`, and invariance of the staffing constraint under a slack
change. -/
theorem C5_staffing_link_witness :
    (numTeachersOf exData2 "X" "a" * exSol2.y ⟨"X", "a", "Mo", "t2"⟩
      = (((Aset exData2).filter (fun a =>
          a.c == "X" && a.t == "a" && a.d == "Mo" && a.h == "t2")).map exSol2.x).sum)
    ∧ assignConB exData2 exSolSlacked "X" "a" "Mo" "t2"
        = assignConB exData2 exSol2 "X" "a" "Mo" "t2" :=
  ⟨(C5_staffing_link exData2 exSol2 ⟨"X", "a", "Mo", "t2"⟩ (by decide) (by decide)).2.1,
   (C5_staffing_link exData2 exSol2 ⟨"X", "a", "Mo", "t2"⟩ (by decide) (by decide)).2.2
     exSolSlacked rfl rfl⟩

/-! ### C4 — deterministic decoding -/

/-- C4: two valuations assigning the same values to every model
variable (every x over `A`, every y over `B`) decode to identical
calendar lists — the same class calendars in class order followed by
the same teacher calendars in teacher order, with identical cells. -/
theorem C4_decode_deterministic (data : InputData) (v1 v2 : Primal)
    (hx : ∀ a ∈ Aset data, v1.x a = v2.x a)
    (hy : ∀ i ∈ Bset data, v1.y i = v2.y i) :
    executeCalendars data v1 = executeCalendars data v2 := by
  have hts : ∀ i : YIdx, classTeachersAt data v1 i = classTeachersAt data v2 i := by
    intro i
    unfold classTeachersAt
    congr 1
    apply List.filter_congr
    intro a ha
    rw [hx a ha]
  have hclass : getClassCalendars data v1 = getClassCalendars data v2 := by
    unfold getClassCalendars
    apply List.map_congr_left
    intro c hc
    have hgrid : classGrid data v1 c = classGrid data v2 c := by
      unfold classGrid
      apply List.foldl_ext
      intro acc i hi
      unfold classCellStep
      rw [hy i hi, hts i]
    rw [hgrid]
  have hteach : getTeacherCalendars data v1 = getTeacherCalendars data v2 := by
    unfold getTeacherCalendars
    apply List.map_congr_left
    intro p hp
    have hgrid : teacherGrid data v1 p = teacherGrid data v2 p := by
      unfold teacherGrid
      apply List.foldl_ext
      intro acc a ha
      unfold teacherCellStep
      rw [hx a ha]
    rw [hgrid]
  unfold executeCalendars
  rw [hclass, hteach]

/-- Witness for C4: `exSol2` and its variant differing only outside `A`
decode to the same calendars of `exData2`. -/
theorem C4_decode_deterministic_witness :
    executeCalendars exData2 exSol2 = executeCalendars exData2 exSol2b :=
  C4_decode_deterministic exData2 exSol2 exSol2b (by decide) (by decide)

/-! ### Key-equality and duplicate-dropping lemmas -/

theorem keyEqB_iff_measures (k1 k2 : List CellValue) :
    keyEqB k1 k2 = true ↔ k1.map cellMeasure = k2.map cellMeasure := by
  induction k1 generalizing k2 with
  | nil => cases k2 <;> simp [keyEqB]
  | cons a as ih =>
    cases k2 with
    | nil => simp [keyEqB]
    | cons b bs =>
      have hstep : keyEqB (a :: as) (b :: bs) = true ↔
          (pyEq a b = true ∧ keyEqB as bs = true) := by
        simp only [keyEqB, List.length_cons, List.zip_cons_cons, List.all_cons,
          Bool.and_eq_true, beq_iff_eq, Nat.add_right_cancel_iff]
        tauto
      rw [hstep]
      simp only [List.map_cons, List.cons.injEq]
      rw [pyEq_iff_cellMeasure, ih]

theorem keyEqB_refl (k : List CellValue) : keyEqB k k = true :=
  (keyEqB_iff_measures k k).mpr rfl

theorem keyEqB_symm (k1 k2 : List CellValue) : keyEqB k1 k2 = keyEqB k2 k1 := by
  cases hb : keyEqB k2 k1
  · cases ha : keyEqB k1 k2
    · rfl
    · have h2 := (keyEqB_iff_measures k2 k1).mpr ((keyEqB_iff_measures k1 k2).mp ha).symm
      rw [hb] at h2
      exact h2.symm
  · exact (keyEqB_iff_measures k1 k2).mpr ((keyEqB_iff_measures k2 k1).mp hb).symm

theorem keyEqB_false_ne {k1 k2 : List CellValue} (h : keyEqB k1 k2 = false) : k1 ≠ k2 := by
  intro he
  rw [he, keyEqB_refl] at h
  exact Bool.noConfusion h

theorem dropDup_subset (idx : List String) (l : List Row) :
    ∀ r ∈ dropDupKeysKeepLast idx l, r ∈ l := by
  induction l with
  | nil => intro r h; exact absurd h (List.not_mem_nil r)
  | cons r0 rest ih =>
    intro r h
    unfold dropDupKeysKeepLast at h
    by_cases hc : rest.any (fun r2 => keyEqB (keyOf idx r0) (keyOf idx r2)) = true
    · rw [if_pos hc] at h
      exact List.mem_cons_of_mem _ (ih r h)
    · rw [if_neg hc] at h
      rcases List.mem_cons.mp h with h1 | h1
      · rw [h1]; exact List.mem_cons_self _ _
      · exact List.mem_cons_of_mem _ (ih r h1)

theorem dropDup_pairwise (idx : List String) (l : List Row) :
    (dropDupKeysKeepLast idx l).Pairwise
      (fun r1 r2 => keyEqB (keyOf idx r1) (keyOf idx r2) = false) := by
  induction l with
  | nil => exact List.Pairwise.nil
  | cons r0 rest ih =>
    unfold dropDupKeysKeepLast
    by_cases hc : rest.any (fun r2 => keyEqB (keyOf idx r0) (keyOf idx r2)) = true
    · rw [if_pos hc]; exact ih
    · rw [if_neg hc]
      refine List.Pairwise.cons ?_ ih
      intro r hr
      have hr2 := dropDup_subset idx rest r hr
      rw [List.any_eq_true] at hc
      push_neg at hc
      have h3 := hc r hr2
      exact Bool.eq_false_iff.mpr h3

theorem dropDup_last (idx : List String) (l : List Row) :
    ∀ r ∈ dropDupKeysKeepLast idx l, lastRowWithKey idx l (keyOf idx r) = some r := by
  induction l with
  | nil => intro r h; exact absurd h (List.not_mem_nil r)
  | cons r0 rest ih =>
    intro r h
    unfold dropDupKeysKeepLast at h
    unfold lastRowWithKey
    by_cases hc : rest.any (fun r2 => keyEqB (keyOf idx r0) (keyOf idx r2)) = true
    · rw [if_pos hc] at h
      have hrrest := dropDup_subset idx rest r h
      have hih := ih r h
      unfold lastRowWithKey at hih
      rw [List.filter_cons]
      by_cases h0 : keyEqB (keyOf idx r0) (keyOf idx r) = true
      · rw [if_pos h0]
        cases hl : rest.filter (fun row => keyEqB (keyOf idx row) (keyOf idx r)) with
        | nil =>
          exfalso
          have hmem : r ∈ rest.filter (fun row => keyEqB (keyOf idx row) (keyOf idx r)) :=
            List.mem_filter.mpr ⟨hrrest, keyEqB_refl _⟩
          rw [hl] at hmem
          exact List.not_mem_nil r hmem
        | cons x xs =>
          rw [hl] at hih
          rw [List.getLast?_cons_cons]
          exact hih
      · rw [if_neg h0]
        exact hih
    · rw [if_neg hc] at h
      rw [List.any_eq_true] at hc
      push_neg at hc
      rcases List.mem_cons.mp h with h1 | h1
      · subst h1
        rw [List.filter_cons, if_pos (keyEqB_refl _)]
        have hfil : rest.filter (fun row => keyEqB (keyOf idx row) (keyOf idx r)) = [] := by
          rw [List.filter_eq_nil_iff]
          intro a ha hx
          rw [keyEqB_symm] at hx
          exact hc a ha hx
        rw [hfil]
        rfl
      · have hrrest := dropDup_subset idx rest r h1
        rw [List.filter_cons]
        rw [if_neg (hc r hrrest)]
        have hih := ih r h1
        unfold lastRowWithKey at hih
        exact hih

/-! ### Option and Forall₂ plumbing -/

theorem except_bind_ok {ε α β : Type} (x : Except ε α) (f : α → Except ε β) (b : β) :
    (x >>= f) = Except.ok b ↔ ∃ a, x = Except.ok a ∧ f a = Except.ok b := by
  cases x with
  | error e =>
    constructor
    · intro h; exact absurd h (by simp [Bind.bind, Except.bind])
    · rintro ⟨a, ha, _⟩; exact absurd ha (by simp)
  | ok a =>
    constructor
    · intro h; exact ⟨a, rfl, h⟩
    · rintro ⟨a2, ha, hf⟩
      have : a2 = a := by injection ha with h2; exact h2.symm
      subst this
      exact hf

theorem mapM_option_forall₂ {α β : Type} (f : α → Option β) :
    ∀ (l : List α) (out : List β), l.mapM f = some out →
      List.Forall₂ (fun a b => f a = some b) l out := by
  intro l
  induction l with
  | nil =>
    intro out h
    rw [List.mapM_nil] at h
    injection h with h
    rw [← h]
    exact List.Forall₂.nil
  | cons a l ih =>
    intro out h
    rw [List.mapM_cons] at h
    cases hfa : f a with
    | none => rw [hfa] at h; exact absurd h (by simp)
    | some b =>
      rw [hfa] at h
      cases hml : l.mapM f with
      | none => rw [hml] at h; exact absurd h (by simp)
      | some bs =>
        rw [hml] at h
        simp only [Option.bind_some, Option.pure_def] at h
        have hout : out = b :: bs := by
          have h2 : some (b :: bs) = some out := h
          injection h2 with h2
          exact h2.symm
        rw [hout]
        exact List.Forall₂.cons hfa (ih bs hml)

theorem forall₂_mem_right {α β : Type} {R : α → β → Prop} :
    ∀ {l1 : List α} {l2 : List β}, List.Forall₂ R l1 l2 → ∀ b ∈ l2, ∃ a ∈ l1, R a b := by
  intro l1 l2 h
  induction h with
  | nil => intro b hb; exact absurd hb (List.not_mem_nil b)
  | cons hR hF ih =>
    intro b hb
    rcases List.mem_cons.mp hb with h1 | h1
    · subst h1
      exact ⟨_, List.mem_cons_self _ _, hR⟩
    · obtain ⟨a, ha, hab⟩ := ih b h1
      exact ⟨a, List.mem_cons_of_mem _ ha, hab⟩

theorem forall₂_map_eq_of_mem {α β γ : Type} {R : α → β → Prop} {f : α → γ} {g : β → γ} :
    ∀ {l1 : List α} {l2 : List β}, List.Forall₂ R l1 l2 →
      (∀ a b, a ∈ l1 → R a b → f a = g b) → l1.map f = l2.map g := by
  intro l1 l2 h
  induction h with
  | nil => intro _; rfl
  | cons hR hF ih =>
    intro H
    simp only [List.map_cons]
    rw [H _ _ (List.mem_cons_self _ _) hR, ih (fun a b ha hab => H a b (List.mem_cons_of_mem _ ha) hab)]

theorem forall₂_map_right_of {α β γ : Type} {R : α → β → Prop} {S : α → γ → Prop}
    (f : β → γ) (H : ∀ a b, R a b → S a (f b)) :
    ∀ {l1 : List α} {l2 : List β}, List.Forall₂ R l1 l2 → List.Forall₂ S l1 (l2.map f) := by
  intro l1 l2 h
  induction h with
  | nil => exact List.Forall₂.nil
  | cons hR hF ih => exact List.Forall₂.cons (H _ _ hR) ih

/-! ### Cell lookup lemmas -/

theorem lookup_map_pairs (cols : List String) (g : String → CellValue) (c : String) :
    (cols.map (fun c2 => (c2, g c2))).lookup c = if c ∈ cols then some (g c) else none := by
  induction cols with
  | nil => simp [List.lookup]
  | cons c0 cols ih =>
    by_cases h0 : c = c0
    · subst h0
      simp [List.lookup]
    · have hbeq : (c == c0) = false := beq_eq_false_iff_ne.mpr h0
      simp [List.lookup, hbeq, ih, h0]

theorem cellAt_map_pairs (cols : List String) (g : String → CellValue) (c : String)
    (hc : c ∈ cols) :
    cellAt (cols.map (fun c2 => (c2, g c2))) c = g c := by
  unfold cellAt
  rw [lookup_map_pairs, if_pos hc]
  rfl

theorem lookup_eq_none_of_not_mem {β : Type} (l : List (String × β)) (c : String)
    (h : c ∉ l.map Prod.fst) : l.lookup c = none := by
  induction l with
  | nil => rfl
  | cons p l ih =>
    obtain ⟨k, v⟩ := p
    have h1 : ¬ (c = k) := by
      intro he
      exact h (by rw [he]; exact List.mem_cons_self _ _)
    have hbeq : (c == k) = false := beq_eq_false_iff_ne.mpr h1
    show (match c == k with | true => some v | false => List.lookup c l) = none
    rw [hbeq]
    exact ih (fun hm => h (List.mem_cons_of_mem _ hm))

theorem cellAt_append_of_lookup_none (r pairs : Row) (c : String)
    (h : pairs.lookup c = none) : cellAt (r ++ pairs) c = cellAt r c := by
  unfold cellAt
  rw [List.lookup_append, h]
  cases r.lookup c <;> rfl

theorem coerceRow_cellAt (s : Schema) (cols : List String) :
    ∀ (r r' : Row), coerceRow s cols r = some r' → ∀ c ∈ cols,
      ∃ w, coerceCell s c (cellAt r c) = some w ∧ cellAt r' c = w := by
  induction cols with
  | nil => intro r r' h c hc; exact absurd hc (List.not_mem_nil c)
  | cons c0 cols ih =>
    intro r r' h c hc
    unfold coerceRow at h
    rw [List.mapM_cons] at h
    cases hf0 : coerceCell s c0 (cellAt r c0) with
    | none => rw [hf0] at h; exact absurd h (by simp)
    | some w0 =>
      rw [hf0] at h
      cases hrest : cols.mapM (fun c2 => (coerceCell s c2 (cellAt r c2)).map (fun v => (c2, v))) with
      | none => rw [hrest] at h; exact absurd h (by simp)
      | some ps =>
        rw [hrest] at h
        simp only [Option.map_some, Option.bind_some, Option.pure_def] at h
        have hr' : r' = (c0, w0) :: ps := by
          have h2 : some ((c0, w0) :: ps) = some r' := h
          injection h2 with h2
          exact h2.symm
        subst hr'
        by_cases hcc : c = c0
        · subst hcc
          refine ⟨w0, hf0, ?_⟩
          unfold cellAt
          show (match c == c with | true => some w0 | false => List.lookup c ps).getD CellValue.vNull = w0
          rw [beq_self_eq_true c]
          rfl
        · have hc2 : c ∈ cols := by
            rcases List.mem_cons.mp hc with h1 | h1
            · exact absurd h1 hcc
            · exact h1
          obtain ⟨w, hw1, hw2⟩ := ih r ps hrest c hc2
          refine ⟨w, hw1, ?_⟩
          unfold cellAt at hw2 ⊢
          have hbeq : (c == c0) = false := beq_eq_false_iff_ne.mpr hcc
          show (match c == c0 with | true => some w0 | false => List.lookup c ps).getD CellValue.vNull = w
          rw [hbeq]
          exact hw2

/-! ### Pipeline inversion lemmas -/

theorem validateColumns_ok (s : Schema) (df df1 : DF) (hind : s.indices ≠ [])
    (h : validateColumns s df = .ok df1) :
    df1.cols = df.cols ∧ df1.rows = dropDupKeysKeepLast s.indices df.rows
    ∧ (∀ c ∈ s.indices, c ∈ df.cols) := by
  unfold validateColumns at h
  by_cases h1 : (!(s.requiredColumns.filter
      (fun c => !(s.columns.filter (fun c2 => df.cols.contains c2)).contains c)).isEmpty) = true
  · rw [if_pos h1] at h
    exact absurd h (by simp)
  · rw [if_neg h1] at h
    by_cases h2 : (!s.indices.isEmpty && !s.indices.all (fun c => df.cols.contains c)) = true
    · rw [if_pos h2] at h
      exact absurd h (by simp)
    · rw [if_neg h2] at h
      have hne : s.indices.isEmpty = false := by
        cases hi : s.indices.isEmpty
        · rfl
        · exact absurd (List.isEmpty_iff.mp hi) hind
      have hall : s.indices.all (fun c => df.cols.contains c) = true := by
        rw [Bool.and_eq_true] at h2
        push_neg at h2
        cases hA : s.indices.all (fun c => df.cols.contains c)
        · exfalso
          apply h2
          · rw [hne]; rfl
          · rw [hA]; rfl
        · rfl
      injection h with h3
      rw [← h3]
      refine ⟨rfl, ?_, ?_⟩
      · show (if s.indices.isEmpty then _ else dropDupKeysKeepLast s.indices df.rows) = _
        rw [hne]
        rfl
      · intro c hc
        have := List.all_eq_true.mp hall c hc
        exact List.elem_iff.mp this

theorem missingColDefaults_spec (s : Schema) (cols : List String)
    (pairs : List (String × CellValue)) (h : missingColDefaults s cols = some pairs) :
    pairs.map Prod.fst = s.columns.filter (fun c => !cols.contains c)
    ∧ ∀ p ∈ pairs, s.defaults.lookup p.1 = some p.2 := by
  unfold missingColDefaults at h
  have hf := mapM_option_forall₂ _ _ _ h
  constructor
  · have heq : (s.columns.filter (fun c => !cols.contains c)).map (fun c => c)
        = pairs.map Prod.fst := by
      refine forall₂_map_eq_of_mem hf ?_
      intro a b _ hR
      cases hl : s.defaults.lookup a with
      | none => rw [hl] at hR; exact absurd hR (by simp)
      | some d =>
        rw [hl] at hR
        have h2 : some (a, d) = some b := by
          simpa using hR
        injection h2 with h2
        rw [← h2]
    have hmapid : ∀ (l : List String), l.map (fun c => c) = l := by
      intro l
      induction l with
      | nil => rfl
      | cons a l ih => simp [ih]
    exact heq.symm.trans (hmapid _)
  · intro p hp
    obtain ⟨c, _, hR⟩ := forall₂_mem_right hf p hp
    cases hl : s.defaults.lookup c with
    | none => rw [hl] at hR; exact absurd hR (by simp)
    | some d =>
      rw [hl] at hR
      have h2 : some (c, d) = some p := by simpa using hR
      injection h2 with h2
      rw [← h2]
      exact hl

theorem addMissingCols_ok (s : Schema) (df df2 : DF)
    (h : addMissingCols s df = .ok df2) :
    ∃ pairs, missingColDefaults s df.cols = some pairs
      ∧ df2.cols = df.cols ++ pairs.map Prod.fst
      ∧ df2.rows = df.rows.map (fun r => r ++ pairs) := by
  unfold addMissingCols at h
  cases hmd : missingColDefaults s df.cols with
  | none => rw [hmd] at h; exact absurd h (by simp)
  | some pairs =>
    rw [hmd] at h
    injection h with h
    exact ⟨pairs, rfl, by rw [← h], by rw [← h]⟩

theorem sortColumnsDF_ok (s : Schema) (df df' : DF) (h : sortColumnsDF s df = .ok df') :
    df'.cols = s.columns ∧ df'.rows = df.rows.map (normalizeRow s.columns)
    ∧ ∀ c ∈ s.columns, c ∈ df.cols := by
  unfold sortColumnsDF at h
  by_cases hc : s.columns.all (fun c => df.cols.contains c) = true
  · rw [if_pos hc] at h
    injection h with h
    rw [← h]
    refine ⟨rfl, rfl, ?_⟩
    intro c hcm
    exact List.elem_iff.mp (List.all_eq_true.mp hc c hcm)
  · rw [if_neg hc] at h
    exact absurd h (by simp)

theorem validateData_ok (s : Schema) (df df4 : DF) (hind : s.indices ≠ [])
    (h : validateData s true df = .ok df4) :
    ∃ pairs,
      missingColDefaults s df.cols = some pairs
      ∧ df4.cols = df.cols ++ pairs.map Prod.fst
      ∧ (∀ c ∈ s.indices, c ∈ df.cols)
      ∧ List.Forall₂
          (fun rIn r4 => coerceRow s (df.cols ++ pairs.map Prod.fst)
              (fillRowCells s (df.cols ++ pairs.map Prod.fst) (rIn ++ pairs)) = some r4)
          (dropDupKeysKeepLast s.indices df.rows) df4.rows := by
  unfold validateData at h
  rw [except_bind_ok] at h
  obtain ⟨df1, h1, h⟩ := h
  rw [except_bind_ok] at h
  obtain ⟨df2, h2, h⟩ := h
  have h2' : addMissingCols s df1 = .ok df2 := h2
  obtain ⟨hc1, hr1, hic⟩ := validateColumns_ok s df df1 hind h1
  obtain ⟨pairs, hmd, hc2, hr2⟩ := addMissingCols_ok s df1 df2 h2'
  rw [hc1] at hmd hc2
  unfold validateTail at h
  refine ⟨pairs, hmd, ?_, hic, ?_⟩
  · cases hmm : (df2.rows.map (fillRowCells s df2.cols)).mapM (coerceRow s df2.cols) with
    | none => rw [hmm] at h; exact absurd h (by simp)
    | some rs =>
      rw [hmm] at h
      have h4 : { cols := df2.cols, rows := rs : DF } = df4 :=
        Except.ok.inj h
      rw [← h4]
      exact hc2
  · cases hmm : (df2.rows.map (fillRowCells s df2.cols)).mapM (coerceRow s df2.cols) with
    | none => rw [hmm] at h; exact absurd h (by simp)
    | some rs =>
      rw [hmm] at h
      have h4 : { cols := df2.cols, rows := rs : DF } = df4 :=
        Except.ok.inj h
      have hf := mapM_option_forall₂ _ _ _ hmm
      rw [List.forall₂_map_left_iff] at hf
      rw [hr2, hr1] at hf
      rw [List.forall₂_map_left_iff] at hf
      rw [← h4]
      show List.Forall₂ _ _ rs
      refine hf.imp ?_
      intro rIn r4 hR
      rw [← hc2]
      exact hR

theorem dataSetter_ok (s : Schema) (df out : DF) (hind : s.indices ≠ [])
    (h : dataSetter s true df = .ok out) :
    ∃ pairs rows1,
      missingColDefaults s df.cols = some pairs
      ∧ (∀ c ∈ s.indices, c ∈ df.cols)
      ∧ out.cols = s.columns
      ∧ List.Forall₂
          (fun rIn rOut => processRow s (df.cols ++ pairs.map Prod.fst) pairs rIn = some rOut)
          (dropDupKeysKeepLast s.indices df.rows) rows1
      ∧ out.rows = List.insertionSort (rowLe s) rows1 := by
  unfold dataSetter at h
  rw [except_bind_ok] at h
  obtain ⟨df4, h4, h⟩ := h
  rw [except_bind_ok] at h
  obtain ⟨df5, h5, h⟩ := h
  have hout : sortRowsDF s df5 = out := by
    have h6 : Except.ok (ε := String) (sortRowsDF s df5) = Except.ok out := h
    injection h6
  obtain ⟨pairs, hmd, hcols4, hidx, hf⟩ := validateData_ok s df df4 hind h4
  obtain ⟨hc5, hr5, _⟩ := sortColumnsDF_ok s df4 df5 h5
  refine ⟨pairs, df5.rows, hmd, hidx, ?_, ?_, ?_⟩
  · rw [← hout]
    show df5.cols = s.columns
    exact hc5
  · rw [hr5]
    refine forall₂_map_right_of (normalizeRow s.columns) ?_ hf
    intro rIn r4 hR
    unfold processRow
    rw [hR]
    rfl
  · rw [← hout]
    rfl

/-! ### Key preservation through the pipeline -/

theorem processRow_keyOf (s : Schema) (cols2 : List String) (pairs : List (String × CellValue))
    (r r' : Row) (h : processRow s cols2 pairs r = some r')
    (hstab : KeyStableRow s r)
    (hsubKeys : ∀ c ∈ s.indices, c ∈ s.columns)
    (hc2 : ∀ c ∈ s.indices, c ∈ cols2)
    (hpl : ∀ c ∈ s.indices, pairs.lookup c = none) :
    keyOf s.indices r' = keyOf s.indices r := by
  unfold processRow at h
  cases hcr : coerceRow s cols2 (fillRowCells s cols2 (r ++ pairs)) with
  | none => rw [hcr] at h; exact absurd h (by simp)
  | some r'' =>
    rw [hcr] at h
    have hr' : r' = normalizeRow s.columns r'' := by
      have h2 : some (normalizeRow s.columns r'') = some r' := h
      injection h2 with h2
      exact h2.symm
    subst hr'
    unfold keyOf
    apply List.map_congr_left
    intro c hc
    show cellAt (normalizeRow s.columns r'') c = cellAt r c
    rw [show normalizeRow s.columns r'' = s.columns.map (fun c2 => (c2, cellAt r'' c2)) from rfl]
    rw [cellAt_map_pairs s.columns (cellAt r'') c (hsubKeys c hc)]
    obtain ⟨w, hw1, hw2⟩ := coerceRow_cellAt s cols2 _ r'' hcr c (hc2 c hc)
    rw [hw2]
    rw [show cellAt (fillRowCells s cols2 (r ++ pairs)) c
        = fillCell s c (cellAt (r ++ pairs) c) from
      cellAt_map_pairs cols2 _ c (hc2 c hc)] at hw1
    rw [cellAt_append_of_lookup_none r pairs c (hpl c hc)] at hw1
    rw [(hstab c hc).1] at hw1
    rw [(hstab c hc).2] at hw1
    injection hw1 with hw1
    exact hw1.symm

theorem pairs_lookup_none_of_idx (s : Schema) (cols : List String)
    (pairs : List (String × CellValue)) (hmd : missingColDefaults s cols = some pairs)
    (hidxc : ∀ c ∈ s.indices, c ∈ cols) :
    ∀ c ∈ s.indices, pairs.lookup c = none := by
  intro c hc
  apply lookup_eq_none_of_not_mem
  rw [(missingColDefaults_spec s cols pairs hmd).1]
  intro hmem
  rw [List.mem_filter] at hmem
  have h2 := hmem.2
  rw [Bool.not_eq_true'] at h2
  have h3 := List.elem_iff.mpr (hidxc c hc)
  rw [show (List.contains cols c) = List.elem c cols from rfl] at h2
  rw [h2] at h3
  exact Bool.noConfusion h3

theorem dataSetter_keyInvariant (s : Schema) (df out : DF) (hind : s.indices ≠ [])
    (hsubKeys : ∀ c ∈ s.indices, c ∈ s.columns)
    (hstab : ∀ r ∈ df.rows, KeyStableRow s r)
    (h : dataSetter s true df = .ok out) : KeyInvariant s out := by
  obtain ⟨pairs, rows1, hmd, hidxc, hcols, hf, hsort⟩ := dataSetter_ok s df out hind h
  have hpl := pairs_lookup_none_of_idx s df.cols pairs hmd hidxc
  have hkeys : (dropDupKeysKeepLast s.indices df.rows).map (keyOf s.indices)
      = rows1.map (keyOf s.indices) := by
    refine forall₂_map_eq_of_mem hf ?_
    intro rIn rOut hmem hR
    exact (processRow_keyOf s (df.cols ++ pairs.map Prod.fst) pairs rIn rOut hR
      (hstab rIn (dropDup_subset _ _ rIn hmem)) hsubKeys
      (fun c hc => List.mem_append.mpr (Or.inl (hidxc c hc))) hpl).symm
  constructor
  · have hpw2 : List.Pairwise (fun k1 k2 => k1 ≠ k2)
        ((dropDupKeysKeepLast s.indices df.rows).map (keyOf s.indices)) := by
      rw [List.pairwise_map]
      exact (dropDup_pairwise s.indices df.rows).imp (fun hke => keyEqB_false_ne hke)
    rw [hkeys] at hpw2
    have hperm : (out.rows.map (keyOf s.indices)).Perm (rows1.map (keyOf s.indices)) := by
      rw [hsort]
      exact List.Perm.map _ (List.perm_insertionSort _ rows1)
    exact hperm.symm.nodup hpw2
  · rw [hsort]
    haveI : IsTotal Row (rowLe s) := ⟨fun a b => keyLe_total _ _⟩
    haveI : IsTrans Row (rowLe s) := ⟨fun a b c hab hbc => keyLe_trans _ _ _ hab hbc⟩
    exact List.sorted_insertionSort (rowLe s) rows1

theorem dataSetter_lastKey (s : Schema) (df out : DF) (hind : s.indices ≠ [])
    (hsubKeys : ∀ c ∈ s.indices, c ∈ s.columns)
    (hstab : ∀ r ∈ df.rows, KeyStableRow s r)
    (h : dataSetter s true df = .ok out) :
    ∀ r ∈ out.rows, ∃ rIn ∈ df.rows, ∃ pairs,
      missingColDefaults s df.cols = some pairs
      ∧ lastRowWithKey s.indices df.rows (keyOf s.indices rIn) = some rIn
      ∧ processRow s (df.cols ++ pairs.map Prod.fst) pairs rIn = some r
      ∧ keyOf s.indices r = keyOf s.indices rIn := by
  obtain ⟨pairs, rows1, hmd, hidxc, hcols, hf, hsort⟩ := dataSetter_ok s df out hind h
  have hpl := pairs_lookup_none_of_idx s df.cols pairs hmd hidxc
  intro r hr
  have hr1 : r ∈ rows1 := by
    rw [hsort] at hr
    exact (List.perm_insertionSort (rowLe s) rows1).mem_iff.mp hr
  obtain ⟨rIn, hmem, hR⟩ := forall₂_mem_right hf r hr1
  refine ⟨rIn, dropDup_subset _ _ rIn hmem, pairs, hmd,
    dropDup_last s.indices df.rows rIn hmem, hR, ?_⟩
  exact processRow_keyOf s (df.cols ++ pairs.map Prod.fst) pairs rIn r hR
    (hstab rIn (dropDup_subset _ _ rIn hmem)) hsubKeys
    (fun c hc => List.mem_append.mpr (Or.inl (hidxc c hc))) hpl

theorem contains_eq_false_of_not_mem (l : List String) (c : String) (h : c ∉ l) :
    l.contains c = false := by
  cases hc : l.contains c
  · rfl
  · exact absurd (List.elem_iff.mp hc) h

theorem lookup_mem {β : Type} (l : List (String × β)) (c : String) (v : β)
    (h : l.lookup c = some v) : (c, v) ∈ l := by
  induction l with
  | nil => exact absurd h (by simp [List.lookup])
  | cons p l ih =>
    obtain ⟨k, b⟩ := p
    by_cases hck : c = k
    · subst hck
      have h2 : some b = some v := by
        have h3 : (match c == c with | true => some b | false => List.lookup c l) = some v := h
        rw [beq_self_eq_true c] at h3
        exact h3
      injection h2 with h2
      rw [h2]
      exact List.mem_cons_self _ _
    · have hbeq : (c == k) = false := beq_eq_false_iff_ne.mpr hck
      have h3 : (match c == k with | true => some b | false => List.lookup c l) = some v := h
      rw [hbeq] at h3
      exact List.mem_cons_of_mem _ (ih h3)

theorem fillCell_default (s : Schema) (c : String) (d : CellValue)
    (hd : s.defaults.lookup c = some d) : fillCell s c d = d := by
  unfold fillCell
  by_cases hnull : d = CellValue.vNull
  · rw [if_pos hnull, hd]
  · rw [if_neg hnull]

/-! ### C7 — key uniqueness and sorting -/

/-- C7 fails on the code as stated universally: duplicate dropping
happens before type coercion, so the text key "1" and the integer key 1
both survive and coerce to the same key — the constructed catalogue
`exDupOut` holds two rows with equal key tuples. -/
theorem C7_key_uniqueness_counterexample :
    aggNew exSchemaK true exDupInput = .ok exDupOut
    ∧ ¬ ((exDupOut.rows.map (keyOf exSchemaK.indices)).Nodup) :=
  ⟨rfl, by decide⟩

/-- C7 amended: for a catalogue with declared key columns whose key
cells are fixed points of null-filling and type coercion, construction
and every add and update yield a table with pairwise-distinct key
tuples sorted ascending by key; on construction every output row is the
processed image (missing-column defaults appended, nulls filled, cells
coerced, columns restricted to schema order) of the last input row
carrying its raw key — so when input rows collide on a key, the last
occurrence is the one kept. -/
theorem C7_key_invariant (s : Schema) (df out : DF)
    (hind : s.indices ≠ [])
    (hsubKeys : ∀ c ∈ s.indices, c ∈ s.columns)
    (hstab : ∀ r ∈ df.rows, KeyStableRow s r)
    (h : aggNew s true df = .ok out) :
    KeyInvariant s out
    ∧ (∀ r ∈ out.rows, ∃ rIn ∈ df.rows, ∃ pairs,
        missingColDefaults s df.cols = some pairs
        ∧ lastRowWithKey s.indices df.rows (keyOf s.indices rIn) = some rIn
        ∧ processRow s (df.cols ++ pairs.map Prod.fst) pairs rIn = some r
        ∧ keyOf s.indices r = keyOf s.indices rIn)
    ∧ (∀ (cur : DF) (row : Row) (out2 : DF),
        aggAdd s true cur row = .ok out2 →
        (∀ nd, validateData s true { cols := row.map (fun p => p.1), rows := [row] } = .ok nd →
          ∀ r ∈ cur.rows ++ nd.rows, KeyStableRow s r) →
        KeyInvariant s out2)
    ∧ (∀ (cur upd : DF) (out3 : DF),
        aggUpdate s true cur upd = .ok out3 →
        (∀ ud, validateData s false upd = .ok ud →
          ∀ r ∈ updatedRows s cur ud, KeyStableRow s r) →
        KeyInvariant s out3) := by
  refine ⟨dataSetter_keyInvariant s df out hind hsubKeys hstab h,
          dataSetter_lastKey s df out hind hsubKeys hstab h, ?_, ?_⟩
  · intro cur row out2 hadd hstab2
    unfold aggAdd at hadd
    rw [except_bind_ok] at hadd
    obtain ⟨nd, hnd, hset⟩ := hadd
    exact dataSetter_keyInvariant s _ out2 hind hsubKeys (hstab2 nd hnd) hset
  · intro cur upd out3 hupd hstab3
    unfold aggUpdate at hupd
    have hne : ¬ (s.indices.isEmpty = true) := by
      intro hie
      exact hind (List.isEmpty_iff.mp hie)
    rw [if_neg hne] at hupd
    rw [except_bind_ok] at hupd
    obtain ⟨ud, hud, hset⟩ := hupd
    exact dataSetter_keyInvariant s _ out3 hind hsubKeys (hstab3 ud hud) hset

/-- Witness for the amended C7: the constructed defaults-example
catalogue has unique, sorted keys. -/
theorem C7_key_invariant_witness : KeyInvariant exSchemaDef exDefOut :=
  (C7_key_invariant exSchemaDef exDefInput exDefOut (by decide) (by decide) (by decide) rfl).1

/-! ### C8 — defaults and type coercion -/

/-- C8: on construction every output cell of a schema column is the
type-coerced value of the null-filled input cell (with the
missing-column defaults appended to the row first); a missing optional
column whose default is coercion-stable is filled with exactly its
declared default; the text "1" coerced with the integer type yields the
integer 1; and constructing a CalendarTasks catalogue from a
keys-only row fills every attribute with its declared default. -/
theorem C8_defaults_and_coercion (s : Schema) (df out : DF) (rOut : Row)
    (hind : s.indices ≠ [])
    (hwf : ∀ r ∈ df.rows, ∀ p ∈ r, p.1 ∈ df.cols)
    (h : aggNew s true df = .ok out) (hr : rOut ∈ out.rows) :
    (∃ rIn ∈ df.rows, ∃ pairs, missingColDefaults s df.cols = some pairs
       ∧ ∀ c ∈ s.columns, ∃ w,
           coerceCell s c (fillCell s c (cellAt (rIn ++ pairs) c)) = some w
           ∧ cellAt rOut c = w)
    ∧ (∀ c ∈ s.columns, c ∉ df.cols → ∀ d, s.defaults.lookup c = some d →
         coerceCell s c d = some d → cellAt rOut c = d)
    ∧ astypeCell .tInt (.vStr "1") = some (.vInt 1)
    ∧ aggNew calendarTasksSchema true ctNewInput = .ok ctNewOut := by
  have hmain : ∃ rIn ∈ df.rows, ∃ pairs, missingColDefaults s df.cols = some pairs
      ∧ ∀ c ∈ s.columns, ∃ w,
          coerceCell s c (fillCell s c (cellAt (rIn ++ pairs) c)) = some w
          ∧ cellAt rOut c = w := by
    obtain ⟨pairs, rows1, hmd, hidxc, hcols, hf, hsort⟩ := dataSetter_ok s df out hind h
    have hnames := (missingColDefaults_spec s df.cols pairs hmd).1
    have hr1 : rOut ∈ rows1 := by
      rw [hsort] at hr
      exact (List.perm_insertionSort (rowLe s) rows1).mem_iff.mp hr
    obtain ⟨rIn, hmem, hR⟩ := forall₂_mem_right hf rOut hr1
    refine ⟨rIn, dropDup_subset _ _ rIn hmem, pairs, hmd, ?_⟩
    intro c hc
    have hc2 : c ∈ df.cols ++ pairs.map Prod.fst := by
      by_cases hdc : c ∈ df.cols
      · exact List.mem_append.mpr (Or.inl hdc)
      · refine List.mem_append.mpr (Or.inr ?_)
        rw [hnames, List.mem_filter]
        refine ⟨hc, ?_⟩
        rw [contains_eq_false_of_not_mem df.cols c hdc]
        rfl
    unfold processRow at hR
    cases hcr : coerceRow s (df.cols ++ pairs.map Prod.fst)
        (fillRowCells s (df.cols ++ pairs.map Prod.fst) (rIn ++ pairs)) with
    | none => rw [hcr] at hR; exact absurd hR (by simp)
    | some r2 =>
      rw [hcr] at hR
      have hrOut : rOut = normalizeRow s.columns r2 := by
        have h2 : some (normalizeRow s.columns r2) = some rOut := hR
        injection h2 with h2
        exact h2.symm
      obtain ⟨w, hw1, hw2⟩ := coerceRow_cellAt s _ _ r2 hcr c hc2
      rw [show cellAt (fillRowCells s (df.cols ++ pairs.map Prod.fst) (rIn ++ pairs)) c
          = fillCell s c (cellAt (rIn ++ pairs) c) from
        cellAt_map_pairs _ _ c hc2] at hw1
      refine ⟨w, hw1, ?_⟩
      rw [hrOut]
      rw [show normalizeRow s.columns r2 = s.columns.map (fun c2 => (c2, cellAt r2 c2)) from rfl]
      rw [cellAt_map_pairs s.columns (cellAt r2) c hc]
      exact hw2
  refine ⟨hmain, ?_, by decide, rfl⟩
  intro c hc hdc d hd hcoerce
  obtain ⟨rIn, hrIn, pairs, hmd, hcell⟩ := hmain
  obtain ⟨w, hw1, hw2⟩ := hcell c hc
  have hlookrIn : rIn.lookup c = none := by
    apply lookup_eq_none_of_not_mem
    intro hmm
    rw [List.mem_map] at hmm
    obtain ⟨p, hp, hp1⟩ := hmm
    exact hdc (hp1 ▸ hwf rIn hrIn p hp)
  have hnames := (missingColDefaults_spec s df.cols pairs hmd).1
  have hvals := (missingColDefaults_spec s df.cols pairs hmd).2
  have hlookpairs : pairs.lookup c = some d := by
    have hcn : c ∈ pairs.map Prod.fst := by
      rw [hnames, List.mem_filter]
      refine ⟨hc, ?_⟩
      rw [contains_eq_false_of_not_mem df.cols c hdc]
      rfl
    have hsome : (pairs.lookup c).isSome = true := (lookup_isSome_iff_mem_keys pairs c).mpr hcn
    cases hl : pairs.lookup c with
    | none => rw [hl] at hsome; exact absurd hsome (by simp)
    | some v =>
      have hv := hvals (c, v) (lookup_mem pairs c v hl)
      rw [hd] at hv
      injection hv with hv
      rw [hv]
  have hcellApp : cellAt (rIn ++ pairs) c = d := by
    unfold cellAt
    rw [List.lookup_append, hlookrIn, hlookpairs]
    rfl
  rw [hcellApp, fillCell_default s c d hd, hcoerce] at hw1
  injection hw1 with hw1
  rw [hw2, ← hw1]

/-- Witness for C8: a cell of the constructed defaults example, and the
text-to-integer coercion. -/
theorem C8_defaults_and_coercion_witness :
    cellAt [("index1", CellValue.vInt 2), ("column1", CellValue.vInt 1),
        ("column2", CellValue.vInt 2)] "column2" = CellValue.vInt 2
    ∧ astypeCell .tInt (.vStr "1") = some (.vInt 1) :=
  ⟨(C8_defaults_and_coercion exSchemaDef exDefInput exDefOut
      [("index1", CellValue.vInt 2), ("column1", CellValue.vInt 1), ("column2", CellValue.vInt 2)]
      (by decide) (by decide) rfl (by decide)).2.1 "column2" (by decide) (by decide)
      (CellValue.vInt 2) rfl rfl,
   (C8_defaults_and_coercion exSchemaDef exDefInput exDefOut
      [("index1", CellValue.vInt 2), ("column1", CellValue.vInt 1), ("column2", CellValue.vInt 2)]
      (by decide) (by decide) rfl (by decide)).2.2.1⟩
